import Mathlib

/-!
Shallow embedding of the resume build pipeline (`engine/build.py`) and proofs
of its specified properties.

The embedding models:
* YAML/JSON-style configuration values (`Val`), Python-`dict` operations on
  association lists with insertion order,
* the JSON serialization `json.dumps(config, indent=2, ensure_ascii=False)`
  and a parser modelling `json.loads`, with a round-trip theorem,
* a filesystem (`FS`) of directories and text files, with `Path.write_text`
  semantics (the parent directory must exist),
* the external collaborators (YAML parser, Jinja templating engine, the
  Tectonic subprocess) as oracles in an `Env` record,
* the pipeline functions `render_template`, `run_command`,
  `build_pdf_with_tectonic`, `validate_resume_config`, `build_variant`,
  `write_site_index` and `main`, translated from the source.
-/

set_option maxHeartbeats 1000000

set_option maxRecDepth 100000

/-- Configuration values: the JSON-representable fragment of YAML values
(null, booleans, arbitrary-precision integers, strings, lists, and
string-keyed mappings in insertion order). -/
inductive Val : Type where
  | vnull : Val
  | vbool : Bool → Val
  | vint : Int → Val
  | vstr : String → Val
  | vlist : List Val → Val
  | vdict : List (String × Val) → Val

/-- `field in config` for a Python dict modelled as an association list. -/
def dictContains (m : List (String × Val)) (k : String) : Bool :=
  m.any (fun p => p.1 == k)

/-- `config.get(k)`: first binding of `k` (Python dicts have unique keys, so
for well-formed dicts this is the binding of `k`). -/
def dictGet (m : List (String × Val)) (k : String) : Option Val :=
  (m.find? (fun p => p.1 == k)).map (fun p => p.2)

/-- `config.get(k, d)`. -/
def dictGetD (m : List (String × Val)) (k : String) (d : Val) : Val :=
  (dictGet m k).getD d

/-- `config.setdefault(k, v)`: appends the binding at the end iff the key is
absent, mirroring Python dict insertion order. -/
def dictSetdefault (m : List (String × Val)) (k : String) (v : Val) :
    List (String × Val) :=
  if dictContains m k then m else m ++ [(k, v)]

/-- Python type names, as they appear in `AttributeError` messages. -/
def pyTypeName : Val → String
  | .vnull => "NoneType"
  | .vbool _ => "bool"
  | .vint _ => "int"
  | .vstr _ => "str"
  | .vlist _ => "list"
  | .vdict _ => "dict"

/-- Decimal digit character. -/
def digitChar (n : Nat) : Char := Char.ofNat (48 + n)

/-- Decimal representation of a natural number (no sign, no leading zeros),
as `str(n)` produces in Python. -/
def natRepr (n : Nat) : List Char :=
  if _h : n < 10 then [digitChar n]
  else natRepr (n / 10) ++ [digitChar (n % 10)]
termination_by n
decreasing_by exact Nat.div_lt_self (by omega) (by omega)

/-- `str(i)` for a Python int. -/
def intRepr (i : Int) : List Char :=
  if i < 0 then '-' :: natRepr (-i).toNat else natRepr i.toNat

mutual

/-- Python `repr` of a value (used by `str()` on containers). String escaping
inside containers is not modelled beyond quoting, which no claim exercises. -/
def pyRepr : Val → String
  | .vnull => "None"
  | .vbool true => "True"
  | .vbool false => "False"
  | .vint i => String.mk (intRepr i)
  | .vstr s => "\x27" ++ s ++ "\x27"
  | .vlist l => "[" ++ pyReprList l ++ "]"
  | .vdict m => "\x7b" ++ pyReprDict m ++ "\x7d"

/-- Comma-separated reprs of list elements. -/
def pyReprList : List Val → String
  | [] => ""
  | [x] => pyRepr x
  | x :: y :: xs => pyRepr x ++ ", " ++ pyReprList (y :: xs)

/-- Comma-separated `key: value` reprs of dict entries. -/
def pyReprDict : List (String × Val) → String
  | [] => ""
  | [(k, v)] => "\x27" ++ k ++ "\x27: " ++ pyRepr v
  | (k, v) :: y :: xs => "\x27" ++ k ++ "\x27: " ++ pyRepr v ++ ", " ++ pyReprDict (y :: xs)

end

/-- Python `str()` of a value, as used by f-string interpolation. -/
def pyStr : Val → String
  | .vstr s => s
  | v => pyRepr v

/-- `sep.join(parts)` in Python. -/
def joinSep (sep : String) : List String → String
  | [] => ""
  | [x] => x
  | x :: y :: xs => x ++ sep ++ joinSep sep (y :: xs)

/-- The substring relation on strings (`needle in hay` in Python terms). -/
def strContains (hay needle : String) : Prop :=
  needle.data <:+: hay.data

instance (hay needle : String) : Decidable (strContains hay needle) :=
  inferInstanceAs (Decidable (needle.data <:+: hay.data))

/-- Lowercase hex digit character for `n < 16`. -/
def hexDigit (n : Nat) : Char :=
  if n < 10 then Char.ofNat (48 + n) else Char.ofNat (87 + n)

/-- JSON string escaping of one character, as the Python `json` encoder does
with `ensure_ascii=False`: escape the quote, the backslash, the short-escape
control characters, and other control characters as `\u00xx`. -/
def escapeChar (c : Char) : List Char :=
  if c = '"' then ['\\', '"']
  else if c = '\\' then ['\\', '\\']
  else if c = '\n' then ['\\', 'n']
  else if c = '\t' then ['\\', 't']
  else if c = '\r' then ['\\', 'r']
  else if c = '\x08' then ['\\', 'b']
  else if c = '\x0c' then ['\\', 'f']
  else if c.toNat < 32 then
    ['\\', 'u', '0', '0', hexDigit (c.toNat / 16), hexDigit (c.toNat % 16)]
  else [c]

/-- JSON string escaping of a character list. -/
def escapeChars : List Char → List Char
  | [] => []
  | c :: cs => escapeChar c ++ escapeChars cs

/-- A JSON string literal: quotes around the escaped contents. -/
def quoteStr (s : String) : List Char :=
  '"' :: escapeChars s.data ++ ['"']

/-- Indentation at nesting depth `k` for `indent=2`. -/
def indentChars (k : Nat) : List Char := List.replicate (2 * k) ' '

mutual

/-- `json.dumps(v, indent=2, ensure_ascii=False)` at nesting depth `k`
(character-list form). Empty containers are compact; non-empty containers
put each item on its own line, indented two more spaces, items separated by
`",\n"`, keys separated from values by `": "`. -/
def dumpVal (k : Nat) : Val → List Char
  | .vnull => 'n' :: 'u' :: 'l' :: 'l' :: []
  | .vbool true => 't' :: 'r' :: 'u' :: 'e' :: []
  | .vbool false => 'f' :: 'a' :: 'l' :: 's' :: 'e' :: []
  | .vint i => intRepr i
  | .vstr s => quoteStr s
  | .vlist [] => '[' :: ']' :: []
  | .vlist (x :: xs) =>
      '[' :: '\n' :: dumpItems (k + 1) x xs ++
        '\n' :: indentChars k ++ (']' :: [])
  | .vdict [] => '\x7b' :: '\x7d' :: []
  | .vdict (p :: ps) =>
      '\x7b' :: '\n' :: dumpEntries (k + 1) p ps ++
        '\n' :: indentChars k ++ ('\x7d' :: [])
termination_by v => sizeOf v

/-- Non-empty list items at depth `k`, each on its own indented line,
separated by `",\n"`. -/
def dumpItems (k : Nat) (x : Val) : List Val → List Char
  | [] => indentChars k ++ dumpVal k x
  | y :: ys => indentChars k ++ dumpVal k x ++ ',' :: '\n' :: dumpItems k y ys
termination_by l => 1 + sizeOf x + sizeOf l

/-- Non-empty dict entries at depth `k`. -/
def dumpEntries (k : Nat) : String × Val → List (String × Val) → List Char
  | (key, v), [] => indentChars k ++ quoteStr key ++ ':' :: ' ' :: dumpVal k v
  | (key, v), q :: qs =>
      indentChars k ++ quoteStr key ++ ':' :: ' ' :: dumpVal k v ++
        ',' :: '\n' :: dumpEntries k q qs
termination_by p ps => 1 + sizeOf p + sizeOf ps

end

/-- `json.dumps(v, indent=2, ensure_ascii=False)`. -/
def jsonDumps (v : Val) : String := String.mk (dumpVal 0 v)

/-- JSON whitespace predicate. -/
def isWsChar (c : Char) : Bool :=
  c = ' ' || c = '\n' || c = '\t' || c = '\r'

/-- Skip leading JSON whitespace. -/
def skipWs : List Char → List Char
  | [] => []
  | c :: cs => if isWsChar c then skipWs cs else c :: cs

/-- ASCII decimal digit predicate. -/
def isDigitChar (c : Char) : Bool :=
  48 ≤ c.toNat && c.toNat ≤ 57

/-- Value of a hex digit character, if it is one. -/
def hexVal (c : Char) : Option Nat :=
  if 48 ≤ c.toNat ∧ c.toNat ≤ 57 then some (c.toNat - 48)
  else if 97 ≤ c.toNat ∧ c.toNat ≤ 102 then some (c.toNat - 87)
  else if 65 ≤ c.toNat ∧ c.toNat ≤ 70 then some (c.toNat - 55)
  else none

/-- Consume a maximal run of decimal digits, accumulating their value. -/
def parseDigits (acc : Nat) : List Char → Nat × List Char
  | [] => (acc, [])
  | c :: cs =>
    if isDigitChar c then parseDigits (acc * 10 + (c.toNat - 48)) cs
    else (acc, c :: cs)

/-- Match an expected literal character sequence. -/
def expectChars : List Char → List Char → Option (List Char)
  | [], cs => some cs
  | _ :: _, [] => none
  | e :: es, c :: cs => if c = e then expectChars es cs else none

/-- Decode the four-hex-digit payload of a `\u` escape. -/
def hex4 : Char → Char → Char → Char → Option Char
  | h1, h2, h3, h4 =>
    match hexVal h1, hexVal h2, hexVal h3, hexVal h4 with
    | some a, some b, some c3, some d =>
      some (Char.ofNat (((a * 16 + b) * 16 + c3) * 16 + d))
    | _, _, _, _ => none

/-- Parse the body of a JSON string after the opening quote: characters up to
the closing quote, decoding escape sequences. -/
def parseStrChars : List Char → Option (List Char × List Char)
  | [] => none
  | c :: cs =>
    if c = '"' then some ([], cs)
    else if c = '\\' then
      match cs with
      | [] => none
      | e :: cs2 =>
        if e = 'n' then (parseStrChars cs2).map (fun p => ('\n' :: p.1, p.2))
        else if e = 't' then (parseStrChars cs2).map (fun p => ('\t' :: p.1, p.2))
        else if e = 'r' then (parseStrChars cs2).map (fun p => ('\r' :: p.1, p.2))
        else if e = 'b' then (parseStrChars cs2).map (fun p => ('\x08' :: p.1, p.2))
        else if e = 'f' then (parseStrChars cs2).map (fun p => ('\x0c' :: p.1, p.2))
        else if e = '"' then (parseStrChars cs2).map (fun p => ('"' :: p.1, p.2))
        else if e = '\\' then (parseStrChars cs2).map (fun p => ('\\' :: p.1, p.2))
        else if e = '/' then (parseStrChars cs2).map (fun p => ('/' :: p.1, p.2))
        else if e = 'u' then
          match cs2 with
          | h1 :: h2 :: h3 :: h4 :: r =>
            match hex4 h1 h2 h3 h4 with
            | some ch => (parseStrChars r).map (fun p => (ch :: p.1, p.2))
            | none => none
          | _ => none
        else none
    else (parseStrChars cs).map (fun p => (c :: p.1, p.2))

mutual

/-- Fueled JSON value parser modelling `json.loads`: skips whitespace, then
dispatches on the first character. Returns the value and the unconsumed
remainder. -/
def parseVal : Nat → List Char → Option (Val × List Char)
  | 0, _ => none
  | fuel + 1, cs0 =>
    match skipWs cs0 with
    | [] => none
    | c :: cs =>
      if c = 'n' then
        (expectChars ('u' :: 'l' :: 'l' :: []) cs).map (fun r => (.vnull, r))
      else if c = 't' then
        (expectChars ('r' :: 'u' :: 'e' :: []) cs).map (fun r => (.vbool true, r))
      else if c = 'f' then
        (expectChars ('a' :: 'l' :: 's' :: 'e' :: []) cs).map
          (fun r => (.vbool false, r))
      else if c = '"' then
        (parseStrChars cs).map (fun p => (.vstr (String.mk p.1), p.2))
      else if c = '[' then
        match skipWs cs with
        | ']' :: r => some (.vlist [], r)
        | _ => (parseItems fuel cs).map (fun p => (.vlist p.1, p.2))
      else if c = '\x7b' then
        match skipWs cs with
        | '\x7d' :: r => some (.vdict [], r)
        | _ => (parsePairs fuel cs).map (fun p => (.vdict p.1, p.2))
      else if c = '-' then
        match cs with
        | d :: _ =>
          if isDigitChar d then
            let p := parseDigits 0 cs
            some (.vint (-(p.1 : Int)), p.2)
          else none
        | [] => none
      else if isDigitChar c then
        let p := parseDigits 0 (c :: cs)
        some (.vint (p.1 : Int), p.2)
      else none

/-- Fueled parser for the items of a non-empty JSON array, up to and
including the closing bracket. -/
def parseItems : Nat → List Char → Option (List Val × List Char)
  | 0, _ => none
  | fuel + 1, cs =>
    match parseVal fuel cs with
    | none => none
    | some (v, r) =>
      match skipWs r with
      | ',' :: r2 => (parseItems fuel r2).map (fun p => (v :: p.1, p.2))
      | ']' :: r2 => some ([v], r2)
      | _ => none

/-- Fueled parser for the entries of a non-empty JSON object, up to and
including the closing brace. -/
def parsePairs : Nat → List Char → Option (List (String × Val) × List Char)
  | 0, _ => none
  | fuel + 1, cs =>
    match skipWs cs with
    | '"' :: cs1 =>
      match parseStrChars cs1 with
      | none => none
      | some (kcs, cs2) =>
        match skipWs cs2 with
        | ':' :: cs3 =>
          match parseVal fuel cs3 with
          | none => none
          | some (v, cs4) =>
            match skipWs cs4 with
            | ',' :: cs5 =>
              (parsePairs fuel cs5).map
                (fun p => ((String.mk kcs, v) :: p.1, p.2))
            | '\x7d' :: cs5 => some ([(String.mk kcs, v)], cs5)
            | _ => none
        | _ => none
    | _ => none

end

/-- `json.loads`: parse a complete JSON document; only trailing whitespace may
remain. The fuel is sufficient for any input (see `fuelNeed_le_length`). -/
def jsonLoads (s : String) : Option Val :=
  match parseVal (s.data.length + 1) s.data with
  | some (v, rest) => if skipWs rest = [] then some v else none
  | none => none

/-- A list of whitespace characters only. -/
def allWs : List Char → Prop
  | [] => True
  | c :: cs => isWsChar c = true ∧ allWs cs

/-- Ten to the number of digits of `n`, following the recursion of
`natRepr`. -/
def tenPow (n : Nat) : Nat :=
  if _h : n < 10 then 10 else 10 * tenPow (n / 10)
termination_by n
decreasing_by exact Nat.div_lt_self (by omega) (by omega)

mutual

/-- Fuel sufficient for `parseVal` to parse the dump of a value. -/
def fuelNeed : Val → Nat
  | .vnull => 1
  | .vbool _ => 1
  | .vint _ => 1
  | .vstr _ => 1
  | .vlist [] => 1
  | .vlist (x :: xs) => 1 + fuelNeedItems x xs
  | .vdict [] => 1
  | .vdict (p :: ps) => 1 + fuelNeedEntries p ps
termination_by v => sizeOf v

/-- Fuel sufficient for `parseItems` on a non-empty item list. -/
def fuelNeedItems (x : Val) : List Val → Nat
  | [] => 1 + fuelNeed x
  | y :: ys => 1 + fuelNeed x + fuelNeedItems y ys
termination_by l => 1 + sizeOf x + sizeOf l

/-- Fuel sufficient for `parsePairs` on a non-empty entry list. -/
def fuelNeedEntries : String × Val → List (String × Val) → Nat
  | (key, v), [] => 1 + fuelNeed v
  | (key, v), q :: qs => 1 + fuelNeed v + fuelNeedEntries q qs
termination_by p l => 1 + sizeOf p + sizeOf l

end

/-- The character sequences that may follow a dumped value inside a larger
dump (or the empty remainder at top level): nothing, a separating comma, or
the newline preceding a closing bracket. No decimal digit is among them. -/
def delimOk : List Char → Prop
  | [] => True
  | c :: _ => c = ',' ∨ c = '\n'

mutual

/-- Well-formedness of a value as a parsed YAML/Python object: every mapping
has pairwise-distinct keys (Python dicts cannot hold duplicates). -/
def Val.wfb : Val → Bool
  | .vnull => true
  | .vbool _ => true
  | .vint _ => true
  | .vstr _ => true
  | .vlist l => wfbList l
  | .vdict m => wfbDict m
termination_by v => sizeOf v

/-- All elements well-formed. -/
def wfbList : List Val → Bool
  | [] => true
  | x :: xs => x.wfb && wfbList xs
termination_by l => sizeOf l

/-- Distinct keys and all values well-formed. -/
def wfbDict : List (String × Val) → Bool
  | [] => true
  | (key, v) :: rest => !(dictContains rest key) && v.wfb && wfbDict rest
termination_by l => sizeOf l

end

/-- Filesystem paths, as component lists relative to the repository root. -/
abbrev FPath := List String

/-- FPath rendering for error messages. -/
def pathStr (p : FPath) : String := joinSep "/" p

/-- The parent directory of a path. -/
def parentDir (p : FPath) : FPath := p.dropLast

/-- All prefixes of a path (the path itself, its parent, ..., the root),
i.e. the directories `mkdir(parents=True)` guarantees to exist. -/
def pathPrefixes (p : FPath) : List FPath :=
  (List.range (p.length + 1)).map (fun i => p.take i)

/-- A filesystem: a set of existing directories and a map from file paths to
text contents. -/
structure FS where
  dirs : List FPath
  files : List (FPath × String)

/-- Directory existence. -/
def FS.hasDir (fs : FS) (p : FPath) : Bool := fs.dirs.contains p

/-- Read a file's content. -/
def FS.read? (fs : FS) (p : FPath) : Option String :=
  (fs.files.find? (fun q => q.1 == p)).map (fun q => q.2)

/-- File existence (`FPath.exists` on a file). -/
def FS.hasFile (fs : FS) (p : FPath) : Bool := (fs.read? p).isSome

/-- Create or overwrite a file (assuming the parent directory exists). -/
def FS.writeFile (fs : FS) (p : FPath) (c : String) : FS :=
  FS.mk fs.dirs ((p, c) :: fs.files.filter (fun q => q.1 != p))

/-- `FPath.mkdir(parents=True, exist_ok=True)`: the directory and all its
ancestors exist afterwards (`ensure_directory_exists`). -/
def FS.mkdirParents (fs : FS) (p : FPath) : FS :=
  FS.mk (pathPrefixes p ++ fs.dirs) fs.files

/-- ` (variant: ...)` suffix attached to several error messages. -/
def variantSuffix (variant_name : String) : String :=
  if variant_name = "" then "" else " (variant: " ++ variant_name ++ ")"

/-- The errors the pipeline can raise, one constructor per `raise` site in
`engine/build.py` (plus the uncaught exceptions the code can let escape:
`FileNotFoundError` from `write_text`, `AttributeError` from calling
`setdefault` on a non-dict). `Err.message` reproduces each Python message. -/
inductive Err where
  | templateSyntax (template_path : String) (variant_name : String)
      (lineno : Int) (msg : String) (filename : Option String)
  | templateNotFound (template_path : String) (variant_name : String)
  | templateOther (template_path : String) (output_path : FPath)
      (variant_name : String) (excType : String) (excMsg : String)
  | fileNotFound (p : FPath)
  | commandFailed (error_context : String) (command : List String)
      (returncode : Int) (stdout : String) (logs : List String)
  | toolNotFound
  | inputMissing (tex_path : FPath) (variant_name : String)
  | outputMissing (variant_name : String)
  | yamlParse (variant_name : String) (config_path : FPath) (emsg : String)
  | attrError (typeName : String) (attr : String)
  | missingFields (variant_name : String) (config_path : FPath)
      (missing : List String)
  | styleNotDict (variant_name : String) (config_path : FPath)
  | styleNotFound (variant_name : String) (config_path : FPath)
      (requested : String) (available : List String)
  | stylesDirMissing (styles_path : FPath)
  | noStyleFiles (styles_path : FPath)

/-- `sorted` on strings (Python's stable ascending sort). -/
def pySorted (l : List String) : List String :=
  List.insertionSort (fun a b => a ≤ b) l

/-- The message text of each error, reproducing the Python f-strings. -/
def Err.message : Err → String
  | .templateSyntax tp vn lineno msg filename =>
    "Jinja2 template syntax error in \x27" ++ tp ++ "\x27" ++
      variantSuffix vn ++ "\n  Line " ++ String.mk (intRepr lineno) ++ ": " ++
      msg ++ (match filename with
        | some f => "\n  File: " ++ f
        | none => "")
  | .templateNotFound tp vn =>
    "Template file not found: \x27" ++ tp ++ "\x27" ++ variantSuffix vn
  | .templateOther tp out vn excType excMsg =>
    "Failed to render template \x27" ++ tp ++ "\x27 → \x27" ++
      pathStr out ++ "\x27" ++ variantSuffix vn ++ "\n  " ++ excType ++
      ": " ++ excMsg
  | .fileNotFound p =>
    "[Errno 2] No such file or directory: \x27" ++ pathStr p ++ "\x27"
  | .commandFailed error_context command returncode stdout logs =>
    (if error_context = "" then "Command failed" else error_context) ++
      "\nCommand: " ++ joinSep " " command ++
      "\nExit code: " ++ String.mk (intRepr returncode) ++
      "\nOutput:\n" ++ stdout ++
      (if logs.isEmpty then "" else "\n\nLaTeX logs:\n" ++ joinSep "\n" logs)
  | .toolNotFound =>
    "Tectonic executable not found on PATH.\n" ++
      "  Please install Tectonic: https://tectonic-typesetting.github.io/install.html\n" ++
      "  Or ensure it is available in your PATH environment variable."
  | .inputMissing tex_path vn =>
    "LaTeX source file not found: " ++ pathStr tex_path ++ variantSuffix vn
  | .outputMissing vn =>
    "PDF build succeeded but resume.pdf was not found" ++ variantSuffix vn
  | .yamlParse vn config_path emsg =>
    "YAML parsing error in configuration for variant \x27" ++ vn ++
      "\x27\n  Config file: " ++ pathStr config_path ++ "\n  Error: " ++ emsg
  | .attrError typeName attr =>
    "\x27" ++ typeName ++ "\x27 object has no attribute \x27" ++ attr ++
      "\x27"
  | .missingFields vn config_path missing =>
    "Invalid resume configuration for variant \x27" ++ vn ++
      "\x27\n  Config file: " ++ pathStr config_path ++
      "\n  Missing required fields: " ++ joinSep ", " missing
  | .styleNotDict vn config_path =>
    "Invalid style configuration for variant \x27" ++ vn ++
      "\x27\n  Config file: " ++ pathStr config_path ++
      "\n  \x27style\x27 must be a dictionary"
  | .styleNotFound vn config_path requested available =>
    "Style file not found for variant \x27" ++ vn ++
      "\x27\n  Config file: " ++ pathStr config_path ++
      "\n  Requested style: \x27" ++ requested ++
      "\x27\n  Available styles: " ++ joinSep ", " (pySorted available)
  | .stylesDirMissing styles_path =>
    "Style directory not found: " ++ pathStr styles_path ++
      "\nThis is a repository structure issue."
  | .noStyleFiles styles_path =>
    "No .sty files found in " ++ pathStr styles_path ++
      "\nThis is a repository structure issue."

/-- Outcome of one Jinja expansion, as reported by the external templating
collaborator. -/
inductive RenderResult where
  | ok (text : String)
  | synErr (lineno : Int) (msg : String) (filename : Option String)
  | notFound
  | other (excType : String) (excMsg : String)

/-- Outcome of one external subprocess invocation: exit status, combined
stdout/stderr capture, and the files the process wrote (relative to its
working directory). -/
structure ProcResult where
  returncode : Int
  stdout : String
  filesWritten : List (FPath × String)

/-- The external collaborators of the pipeline, modelled as oracles: the
YAML parser, the Jinja templating engine, `shutil.which("tectonic")`, the
subprocess behavior, the engine resource tree, and the style resources in
`engine/styles`. -/
structure Env where
  yaml : String → Except String Val
  render : String → Val → RenderResult
  tectonic : Option String
  runProc : List String → FPath → ProcResult
  engineEntries : List (FPath × String)
  stylesDirExists : Bool
  styleFiles : List (String × String)
  bundleCache : FPath

/-- `ENGINE_DIR` relative to the repository root. -/
def ENGINE_DIR : FPath := ["engine"]

/-- `RESUMES_DIR` relative to the repository root. -/
def RESUMES_DIR : FPath := ["resumes"]

/-- `SITE_DIR` relative to the repository root. -/
def SITE_DIR : FPath := ["site"]

/-- `ENGINE_DIR / "styles"`. -/
def STYLES_DIR : FPath := ["engine", "styles"]

/-- `REQUIRED_CONFIG_FIELDS`. -/
def REQUIRED_CONFIG_FIELDS : List String :=
  ["name", "contact", "experience", "education"]

/-- The stems of `engine/styles/*.sty` (`available_styles` in the code). -/
def availableStyles (env : Env) : List String :=
  env.styleFiles.map Prod.fst

/-- The default style value injected by `config.setdefault`. -/
def defaultStyleVal : Val :=
  .vdict [("base", .vstr "default"), ("override", .vnull)]

/-- `validate_resume_config`: collect every missing required field and fail
with all of them at once; then, if `style` is present, require it to be a
mapping whose `base` names an existing style resource. -/
def validate_resume_config (env : Env) (config : List (String × Val))
    (variant_name : String) (config_path : FPath) : Except Err Unit :=
  let missing_fields :=
    REQUIRED_CONFIG_FIELDS.filter (fun field => ! dictContains config field)
  if ¬ missing_fields.isEmpty then
    .error (.missingFields variant_name config_path missing_fields)
  else if dictContains config "style" then
    match dictGet config "style" with
    | some (.vdict style) =>
      let style_base := pyStr (dictGetD style "base" (.vstr "default"))
      if (availableStyles env).contains style_base then .ok ()
      else
        .error (.styleNotFound variant_name config_path style_base
          (availableStyles env))
    | _ => .error (.styleNotDict variant_name config_path)
  else .ok ()

/-- The `FileNotFoundError` message of a `write_text` whose parent directory
does not exist. -/
def fnfMsg (p : FPath) : String :=
  "[Errno 2] No such file or directory: \x27" ++ pathStr p ++ "\x27"

/-- `render_template`: expand via the templating collaborator and write the
result with `write_text` (which requires the parent directory to exist);
wrap every failure in the corresponding `RuntimeError`. -/
def render_template (env : Env) (template_path : String) (output_path : FPath)
    (context : Val) (variant_name : String) (fs : FS) :
    Except (Err × FS) FS :=
  match env.render template_path context with
  | .ok rendered_content =>
    if fs.hasDir (parentDir output_path) then
      .ok (fs.writeFile output_path rendered_content)
    else
      .error (.templateOther template_path output_path variant_name
        "FileNotFoundError" (fnfMsg output_path), fs)
  | .synErr lineno msg filename =>
    .error (.templateSyntax template_path variant_name lineno msg filename, fs)
  | .notFound =>
    .error (.templateNotFound template_path variant_name, fs)
  | .other excType excMsg =>
    .error (.templateOther template_path output_path variant_name excType
      excMsg, fs)

/-- Apply the files a subprocess wrote under its working directory. -/
def applyProcWrites (wd : FPath) (writes : List (FPath × String)) (fs : FS) :
    FS :=
  writes.foldl (fun acc q => acc.writeFile (wd ++ q.1) q.2) fs

/-- The compiler log names `run_command` looks for. -/
def LOG_NAMES : List String := ["resume.log", "texput.log"]

/-- The log blocks attached to a failed command: one block per log file that
exists in the working directory, in the fixed order of `LOG_NAMES`. -/
def logBlocks (wd : FPath) (fs : FS) : List String :=
  LOG_NAMES.filterMap (fun log_name =>
    (fs.read? (wd ++ [log_name])).map (fun content =>
      "\n===== " ++ log_name ++ " =====\n" ++ content))

/-- `run_command`: run the subprocess (applying its filesystem effects),
then on non-zero exit raise an error carrying the error context, the
command, the exit code, the full captured output, and any log blocks found
in the working directory. -/
def run_command (env : Env) (command : List String)
    (working_directory : Option FPath) (error_context : String) (fs : FS) :
    Except (Err × FS) FS :=
  let wd := working_directory.getD []
  let result := env.runProc command wd
  let fs1 := applyProcWrites wd result.filesWritten fs
  if result.returncode = 0 then .ok fs1
  else
    let logs := match working_directory with
      | some wdir => logBlocks wdir fs1
      | none => []
    .error (.commandFailed error_context command result.returncode
      result.stdout logs, fs1)

/-- `build_pdf_with_tectonic`: resolve the executable, ensure the bundle
cache directory, check the source exists, run the compiler, check the PDF
exists. -/
def build_pdf_with_tectonic (env : Env) (build_dir : FPath)
    (tex_filename : String) (variant_name : String) (fs : FS) :
    Except (Err × FS) (FPath × FS) :=
  match env.tectonic with
  | none => .error (.toolNotFound, fs)
  | some tectonic_executable =>
    let pdf_filename := "resume.pdf"
    let fs := fs.mkdirParents env.bundleCache
    let tex_path := build_dir ++ [tex_filename]
    if ¬ fs.hasFile tex_path then
      .error (.inputMissing tex_path variant_name, fs)
    else
      let error_context := "LaTeX compilation failed for \x27" ++
        tex_filename ++ "\x27" ++ variantSuffix variant_name
      match run_command env
          [tectonic_executable, "--print", "--synctex", "--keep-logs",
            tex_filename]
          (some build_dir) error_context fs with
      | .error e => .error e
      | .ok fs1 =>
        let pdf_path := build_dir ++ [pdf_filename]
        if ¬ fs1.hasFile pdf_path then
          .error (.outputMissing variant_name, fs1)
        else .ok (pdf_path, fs1)

/-- `shutil.copy2`: read the source, write the destination. -/
def copyFile (src dst : FPath) (fs : FS) : Except (Err × FS) FS :=
  match fs.read? src with
  | some content =>
    if fs.hasDir (parentDir dst) then .ok (fs.writeFile dst content)
    else .error (.fileNotFound dst, fs)
  | none => .error (.fileNotFound src, fs)

/-- `shutil.copytree(ENGINE_DIR, dst, dirs_exist_ok=True)`: create the
destination tree and copy every engine entry. -/
def copyEngineTree (env : Env) (dst : FPath) (fs : FS) : FS :=
  env.engineEntries.foldl
    (fun acc q =>
      (acc.mkdirParents (parentDir (dst ++ q.1))).writeFile (dst ++ q.1) q.2)
    (fs.mkdirParents dst)

/-- `normalize_variant_name`: the directory's own name. -/
def normalize_variant_name (variant_directory : FPath) : String :=
  variant_directory.getLastD ""

/-- The fixed template artifacts rendered for one variant, in source order:
the LaTeX root, the five section sources, and the HTML page. -/
def RENDER_TARGETS (build_dir output_dir : FPath) : List (String × FPath) :=
  [("engine/latex/resume.tex.j2", build_dir ++ ["resume.tex"]),
   ("engine/latex/sections/header.tex.j2",
     build_dir ++ ["engine", "latex", "sections", "header.tex"]),
   ("engine/latex/sections/mission.tex.j2",
     build_dir ++ ["engine", "latex", "sections", "mission.tex"]),
   ("engine/latex/sections/experience.tex.j2",
     build_dir ++ ["engine", "latex", "sections", "experience.tex"]),
   ("engine/latex/sections/education.tex.j2",
     build_dir ++ ["engine", "latex", "sections", "education.tex"]),
   ("engine/latex/sections/interests.tex.j2",
     build_dir ++ ["engine", "latex", "sections", "interests.tex"]),
   ("engine/html/resume.html.j2", output_dir ++ ["resume.html"])]

/-- Render a list of template targets in order, stopping at the first
failure. -/
def renderAll (env : Env) (targets : List (String × FPath)) (context : Val)
    (variant_name : String) (fs : FS) : Except (Err × FS) FS :=
  match targets with
  | [] => .ok fs
  | (tp, out) :: rest =>
    match render_template env tp out context variant_name fs with
    | .error e => .error e
    | .ok fs2 => renderAll env rest context variant_name fs2

/-- Steps 3-5 of `build_variant` (after successful validation): prepare
directories, copy resources, render templates, write the JSON dump, compile
the PDF, and publish into the site tree. -/
def buildVariantSteps (env : Env) (variant_directory : FPath)
    (variant_name : String) (config : List (String × Val)) (fs : FS) :
    Except (Err × FS) FS :=
  let build_dir := variant_directory ++ ["build"]
  let output_dir := variant_directory ++ ["output"]
  let fs := (fs.mkdirParents build_dir).mkdirParents output_dir
  let fs := copyEngineTree env (build_dir ++ ["engine"]) fs
  if ¬ env.stylesDirExists then
    .error (.stylesDirMissing STYLES_DIR, fs)
  else if env.styleFiles.isEmpty then
    .error (.noStyleFiles STYLES_DIR, fs)
  else
    let fs := env.styleFiles.foldl
      (fun acc q => acc.writeFile (build_dir ++ [q.1 ++ ".sty"]) q.2) fs
    let context := Val.vdict [("config", Val.vdict config)]
    match renderAll env (RENDER_TARGETS build_dir output_dir) context
        variant_name fs with
    | .error e => .error e
    | .ok fs =>
      if ¬ fs.hasDir (parentDir (output_dir ++ ["resume.md"])) then
        .error (.fileNotFound (output_dir ++ ["resume.md"]), fs)
      else
        let fs := fs.writeFile (output_dir ++ ["resume.md"])
          (jsonDumps (Val.vdict config))
        match build_pdf_with_tectonic env build_dir "resume.tex"
            variant_name fs with
        | .error e => .error e
        | .ok (pdf_path, fs) =>
          match copyFile pdf_path (output_dir ++ ["resume.pdf"]) fs with
          | .error e => .error e
          | .ok fs =>
            let variant_site_dir := SITE_DIR ++ [variant_name]
            let fs := fs.mkdirParents variant_site_dir
            match copyFile (output_dir ++ ["resume.pdf"])
                (variant_site_dir ++ ["resume.pdf"]) fs with
            | .error e => .error e
            | .ok fs =>
              copyFile (output_dir ++ ["resume.html"])
                (variant_site_dir ++ ["index.html"]) fs

/-- `build_variant`: skip when no `resume.yaml` exists; otherwise parse the
YAML, inject the default style with `setdefault` (an `AttributeError`
escapes when the parse produced a non-mapping), validate, and run the build
steps. Errors propagate unchanged (the `except` clause only prints before
re-raising); the paired `FS` is the filesystem at the moment of failure. -/
def build_variant (env : Env) (variant_directory : FPath) (fs : FS) :
    Except (Err × FS) FS :=
  let variant_name := normalize_variant_name variant_directory
  let config_path := variant_directory ++ ["resume.yaml"]
  match fs.read? config_path with
  | none => .ok fs
  | some raw =>
    match env.yaml raw with
    | .error emsg => .error (.yamlParse variant_name config_path emsg, fs)
    | .ok parsed =>
      match parsed with
      | .vdict m0 =>
        let config := dictSetdefault m0 "style" defaultStyleVal
        match validate_resume_config env config variant_name config_path with
        | .error e => .error (e, fs)
        | .ok _ => buildVariantSteps env variant_directory variant_name
            config fs
      | other => .error (.attrError (pyTypeName other) "setdefault", fs)

/-- One variant link in the site index. -/
def mkVariantLink (name : String) : String :=
  "<li><a href=\"" ++ name ++ "/\">" ++ name ++ "</a></li>"

/-- The joined link list, in sorted order of variant name. -/
def siteIndexLinks (variant_names : List String) : String :=
  joinSep "\n" ((pySorted variant_names).map mkVariantLink)

/-- The index page text before the links. -/
def SITE_INDEX_PREFIX : String :=
  "<!DOCTYPE html>\n<html lang=\"en\">\n<head>\n  <meta charset=\"UTF-8\">\n" ++
  "  <title>Resume Variants</title>\n  <style>\n" ++
  "    body \x7b font-family: Arial, Helvetica, sans-serif; max-width: 800px; margin: 0 auto; padding: 48px; color: #111; \x7d\n" ++
  "    h1 \x7b margin-bottom: 8px; \x7d\n" ++
  "    ul \x7b margin-top: 12px; \x7d\n" ++
  "    a \x7b color: #004080; text-decoration: none; \x7d\n" ++
  "    a:hover \x7b text-decoration: underline; \x7d\n" ++
  "  </style>\n</head>\n<body>\n  <h1>Resume Variants</h1>\n" ++
  "  <p>Select a resume variant:</p>\n  <ul>\n    "

/-- The index page text after the links. -/
def SITE_INDEX_SUFFIX : String := "\n  </ul>\n</body>\n</html>\n"

/-- The full content of `site/index.html` for a set of variant names. -/
def siteIndexHtml (variant_names : List String) : String :=
  SITE_INDEX_PREFIX ++ siteIndexLinks variant_names ++ SITE_INDEX_SUFFIX

/-- `write_site_index`: ensure the site directory and rewrite the index page
in full, from the variant names alone. -/
def write_site_index (variant_names : List String) (fs : FS) :
    Except (Err × FS) FS :=
  let fs := fs.mkdirParents SITE_DIR
  if fs.hasDir (parentDir (SITE_DIR ++ ["index.html"])) then
    .ok (fs.writeFile (SITE_DIR ++ ["index.html"])
      (siteIndexHtml variant_names))
  else .error (.fileNotFound (SITE_DIR ++ ["index.html"]), fs)

/-- The loop body of `main`: a directory is a candidate when it is a
directory and contains `resume.yaml`. -/
def isCandidate (fs : FS) (d : FPath) : Bool :=
  fs.hasDir d && fs.hasFile (d ++ ["resume.yaml"])

/-- The `main` loop over the entries of the resumes directory (in the
enumeration order the OS returns, a parameter here): build each candidate,
collect the names of those built, abort on the first failure. -/
def processVariants (env : Env) (dirs : List FPath) (fs : FS) :
    Except (Err × FS) (FS × List String) :=
  match dirs with
  | [] => .ok (fs, [])
  | d :: rest =>
    if isCandidate fs d then
      match build_variant env d fs with
      | .error e => .error e
      | .ok fs2 =>
        match processVariants env rest fs2 with
        | .error e => .error e
        | .ok (fs3, names) => .ok (fs3, normalize_variant_name d :: names)
    else processVariants env rest fs

/-- `main`: ensure the site directory, build every candidate variant, then
write the site index. -/
def main_pipeline (env : Env) (dirs : List FPath) (fs : FS) :
    Except (Err × FS) FS :=
  let fs := fs.mkdirParents SITE_DIR
  match processVariants env dirs fs with
  | .error e => .error e
  | .ok (fs2, variant_names) => write_site_index variant_names fs2

/-- Process exit status: non-zero iff an uncaught error terminated the
pipeline. -/
def exitCode (r : Except (Err × FS) FS) : Nat :=
  match r with
  | .ok _ => 0
  | .error _ => 1

/-- The filesystem component of a pipeline step result (the state at
success, or at the moment of failure). -/
def exceptFS : Except (Err × FS) FS → FS
  | .ok fs => fs
  | .error (_, fs) => fs

/-- The filesystem component of a `processVariants` result. -/
def exceptFSN : Except (Err × FS) (FS × List String) → FS
  | .ok (fs, _) => fs
  | .error (_, fs) => fs

/-- The missing-fields list computed by `validate_resume_config`. -/
def missingOf (config : List (String × Val)) : List String :=
  REQUIRED_CONFIG_FIELDS.filter (fun field => ! dictContains config field)

/-- A concrete validated configuration record (with the injected default
style). -/
def sampleResumeConfig : Val :=
  .vdict [("name", .vstr "Ada Lovelace"),
    ("contact", .vdict [("email", .vstr "ada@example.com"),
      ("phone", .vnull)]),
    ("experience", .vlist [.vdict [("company", .vstr "Analytical Engines"),
      ("years", .vint 3)]]),
    ("education", .vlist [.vstr "University of London"]),
    ("style", .vdict [("base", .vstr "default"), ("override", .vnull)])]

theorem data_append (a b : String) : (a ++ b).data = a.data ++ b.data := by
  cases a; cases b; rfl

theorem strContains_of_eq (a needle b hay : String)
    (h : hay = a ++ needle ++ b) : strContains hay needle := by
  refine ⟨a.data, b.data, ?_⟩
  simp [h, data_append]

theorem strContains_refl (s : String) : strContains s s :=
  strContains_of_eq "" s "" s (by simp)

theorem strContains_append_left (pre hay needle : String)
    (h : strContains hay needle) : strContains (pre ++ hay) needle := by
  rcases h with ⟨a, b, hab⟩
  refine ⟨pre.data ++ a, b, ?_⟩
  simp [data_append, ← hab]

theorem strContains_append_right (hay post needle : String)
    (h : strContains hay needle) : strContains (hay ++ post) needle := by
  rcases h with ⟨a, b, hab⟩
  refine ⟨a, b ++ post.data, ?_⟩
  simp [data_append, ← hab, List.append_assoc]

theorem strContains_joinSep (sep : String) (l : List String) (x : String)
    (hx : x ∈ l) : strContains (joinSep sep l) x := by
  induction l with
  | nil => cases hx
  | cons a as ih =>
    cases as with
    | nil =>
      rcases List.mem_cons.mp hx with hx | hx
      · exact hx ▸ strContains_refl a
      · cases hx
    | cons b bs =>
      rcases List.mem_cons.mp hx with hx | hx
      · subst hx
        exact strContains_append_right _ _ _
          (strContains_append_right _ _ _ (strContains_refl x))
      · exact strContains_append_left (a ++ sep) _ _ (ih hx)

theorem skipWs_not_ws (c : Char) (cs : List Char) (h : isWsChar c = false) :
    skipWs (c :: cs) = c :: cs := by
  simp [skipWs, h]

theorem skipWs_ws_append (p cs : List Char) (h : allWs p) :
    skipWs (p ++ cs) = skipWs cs := by
  induction p with
  | nil => rfl
  | cons a as ih =>
    rcases h with ⟨ha, has⟩
    simp [skipWs, ha, ih has]

theorem allWs_indentChars (k : Nat) : allWs (indentChars k) := by
  unfold indentChars
  induction 2 * k with
  | zero => trivial
  | succ n ih => exact ⟨by decide, ih⟩

theorem skipWs_indent (k : Nat) (cs : List Char) :
    skipWs (indentChars k ++ cs) = skipWs cs :=
  skipWs_ws_append _ _ (allWs_indentChars k)

theorem skipWs_newline (cs : List Char) : skipWs ('\n' :: cs) = skipWs cs := by
  simp [skipWs, isWsChar]

theorem skipWs_space (cs : List Char) : skipWs (' ' :: cs) = skipWs cs := by
  simp [skipWs, isWsChar]

theorem digitChar_isDigit (n : Nat) (h : n < 10) :
    isDigitChar (digitChar n) = true := by
  interval_cases n <;> decide

theorem digitChar_val (n : Nat) (h : n < 10) :
    (digitChar n).toNat = 48 + n := by
  interval_cases n <;> decide

/-- A decimal digit character is not whitespace, not a closing bracket or
brace, and not one of the keyword/string/sign/container start characters. -/
theorem isDigitChar_facts (c : Char) (h : isDigitChar c = true) :
    isWsChar c = false ∧ c ≠ ']' ∧ c ≠ '\x7d' ∧ c ≠ 'n' ∧ c ≠ 't' ∧
      c ≠ 'f' ∧ c ≠ '"' ∧ c ≠ '[' ∧ c ≠ '\x7b' ∧ c ≠ '-' ∧ c ≠ ',' := by
  have hsp : c ≠ ' ' := by intro he; subst he; exact absurd h (by decide)
  have hnl : c ≠ '\n' := by intro he; subst he; exact absurd h (by decide)
  have htb : c ≠ '\t' := by intro he; subst he; exact absurd h (by decide)
  have hcr : c ≠ '\r' := by intro he; subst he; exact absurd h (by decide)
  refine ⟨by simp [isWsChar, hsp, hnl, htb, hcr], ?_, ?_, ?_, ?_, ?_, ?_,
    ?_, ?_, ?_, ?_⟩ <;> (intro he; subst he; exact absurd h (by decide))

/-- `natRepr n` starts with a decimal digit. -/
theorem natRepr_head (n : Nat) :
    ∃ c t, natRepr n = c :: t ∧ isDigitChar c = true := by
  induction n using Nat.strong_induction_on with
  | _ n ih =>
    by_cases h : n < 10
    · exact ⟨digitChar n, [], by rw [natRepr]; simp [h],
        digitChar_isDigit n h⟩
    · have hd := ih (n / 10) (Nat.div_lt_self (by omega) (by omega))
      rcases hd with ⟨c, t, hct, hc⟩
      exact ⟨c, t ++ [digitChar (n % 10)],
        by rw [natRepr]; simp [h, hct], hc⟩

theorem parseDigits_stop (acc : Nat) (rest : List Char)
    (h : ∀ c t, rest = c :: t → isDigitChar c = false) :
    parseDigits acc rest = (acc, rest) := by
  cases rest with
  | nil => rfl
  | cons c t => simp [parseDigits, h c t rfl]

theorem parseDigits_natRepr (n : Nat) : ∀ acc rest,
    parseDigits acc (natRepr n ++ rest) =
      parseDigits (acc * tenPow n + n) rest := by
  induction n using Nat.strong_induction_on with
  | _ n ih =>
    intro acc rest
    by_cases h : n < 10
    · rw [natRepr, tenPow]
      simp only [h, dif_pos, List.singleton_append]
      simp [parseDigits, digitChar_isDigit n h, digitChar_val n h]
    · rw [natRepr, tenPow]
      simp only [h, dif_neg, not_false_iff, List.append_assoc,
        List.singleton_append]
      rw [ih (n / 10) (Nat.div_lt_self (by omega) (by omega))]
      have h10 : n % 10 < 10 := Nat.mod_lt _ (by omega)
      simp only [parseDigits, digitChar_isDigit _ h10, if_pos,
        digitChar_val _ h10]
      have : (acc * tenPow (n / 10) + n / 10) * 10 + (48 + n % 10 - 48) =
          acc * (10 * tenPow (n / 10)) + n := by
        have := Nat.div_add_mod n 10
        ring_nf
        omega
      rw [this]

theorem hexVal_hexDigit (n : Nat) (h : n < 16) : hexVal (hexDigit n) = some n := by
  interval_cases n <;> decide

theorem hex4_eval (h3 h4 : Char) (a b : Nat) (hh3 : hexVal h3 = some a)
    (hh4 : hexVal h4 = some b) :
    hex4 '0' '0' h3 h4 = some (Char.ofNat (a * 16 + b)) := by
  have h0 : hexVal '0' = some 0 := by decide
  simp only [hex4, h0, hh3, hh4, Nat.zero_mul, Nat.zero_add, Nat.mul_zero,
    Nat.add_zero]

theorem parseStrChars_u (h3 h4 : Char) (ch : Char) (rest : List Char)
    (h : hex4 '0' '0' h3 h4 = some ch) :
    parseStrChars ('\\' :: 'u' :: '0' :: '0' :: h3 :: h4 :: rest) =
      (parseStrChars rest).map (fun p => (ch :: p.1, p.2)) := by
  rw [parseStrChars.eq_def]
  simp +decide [h]

theorem parse_escapeChar (c : Char) (rest : List Char) :
    parseStrChars (escapeChar c ++ rest) =
      (parseStrChars rest).map (fun p => (c :: p.1, p.2)) := by
  by_cases h1 : c = '"'
  · subst h1; rw [parseStrChars.eq_def]; simp +decide [escapeChar]
  by_cases h2 : c = '\\'
  · subst h2; rw [parseStrChars.eq_def]; simp +decide [escapeChar]
  by_cases h3 : c = '\n'
  · subst h3; rw [parseStrChars.eq_def]; simp +decide [escapeChar]
  by_cases h4 : c = '\t'
  · subst h4; rw [parseStrChars.eq_def]; simp +decide [escapeChar]
  by_cases h5 : c = '\r'
  · subst h5; rw [parseStrChars.eq_def]; simp +decide [escapeChar]
  by_cases h6 : c = '\x08'
  · subst h6; rw [parseStrChars.eq_def]; simp +decide [escapeChar]
  by_cases h7 : c = '\x0c'
  · subst h7; rw [parseStrChars.eq_def]; simp +decide [escapeChar]
  by_cases h8 : c.toNat < 32
  · have hd : c.toNat / 16 < 16 := by omega
    have hm : c.toNat % 16 < 16 := by omega
    have he : escapeChar c =
        ['\\', 'u', '0', '0', hexDigit (c.toNat / 16), hexDigit (c.toNat % 16)] := by
      simp [escapeChar, h1, h2, h3, h4, h5, h6, h7, h8]
    rw [he, List.cons_append, List.cons_append, List.cons_append,
      List.cons_append, List.cons_append, List.cons_append, List.nil_append]
    rw [parseStrChars_u _ _ _ _ (hex4_eval _ _ _ _
      (hexVal_hexDigit _ hd) (hexVal_hexDigit _ hm))]
    have hval : c.toNat / 16 * 16 + c.toNat % 16 = c.toNat := by omega
    rw [hval, Char.ofNat_toNat]
  · have he : escapeChar c = [c] := by
      simp [escapeChar, h1, h2, h3, h4, h5, h6, h7, h8]
    rw [he, List.cons_append, List.nil_append, parseStrChars.eq_def]
    simp only []
    rw [if_neg h1, if_neg h2]

theorem parse_escapeChars (l : List Char) (rest : List Char) :
    parseStrChars (escapeChars l ++ '"' :: rest) = some (l, rest) := by
  induction l with
  | nil =>
    show parseStrChars ('"' :: rest) = some ([], rest)
    rw [parseStrChars.eq_def]
    simp +decide
  | cons c cs ih =>
    rw [escapeChars, List.append_assoc, parse_escapeChar, ih]
    rfl

theorem string_mk_data (s : String) : String.mk s.data = s := by
  cases s; rfl

theorem fuelNeed_pos (v : Val) : 1 ≤ fuelNeed v := by
  cases v with
  | vlist l => cases l <;> simp [fuelNeed]
  | vdict m =>
    cases m with
    | nil => simp [fuelNeed]
    | cons p ps => cases p; simp [fuelNeed]
  | vnull => simp [fuelNeed]
  | vbool b => simp [fuelNeed]
  | vint i => simp [fuelNeed]
  | vstr s => simp [fuelNeed]

theorem delimOk_no_digit (rest : List Char) (h : delimOk rest) :
    ∀ c t, rest = c :: t → isDigitChar c = false := by
  intro c t he
  subst he
  rcases h with h | h <;> (subst h; decide)

theorem intRepr_head (i : Int) :
    ∃ c t, intRepr i = c :: t ∧ (c = '-' ∨ isDigitChar c = true) := by
  by_cases h : i < 0
  · exact ⟨'-', natRepr (-i).toNat, by simp [intRepr, h], Or.inl rfl⟩
  · obtain ⟨c, t, hct, hc⟩ := natRepr_head i.toNat
    exact ⟨c, t, by simp [intRepr, h, hct], Or.inr hc⟩

theorem dumpVal_head (k : Nat) (v : Val) :
    ∃ c t, dumpVal k v = c :: t ∧ isWsChar c = false ∧ c ≠ ']' ∧
      c ≠ '\x7d' := by
  cases v with
  | vnull =>
    simp only [dumpVal]
    exact ⟨'n', _, rfl, by decide, by decide, by decide⟩
  | vbool b =>
    cases b <;> simp only [dumpVal] <;>
      exact ⟨_, _, rfl, by decide, by decide, by decide⟩
  | vint i =>
    simp only [dumpVal]
    obtain ⟨c, t, hct, hc⟩ := intRepr_head i
    rw [hct]
    rcases hc with hc | hc
    · subst hc
      exact ⟨'-', t, rfl, by decide, by decide, by decide⟩
    · obtain ⟨hws, h1, h2, _⟩ := isDigitChar_facts c hc
      exact ⟨c, t, rfl, hws, h1, h2⟩
  | vstr s =>
    simp only [dumpVal, quoteStr]
    exact ⟨'"', _, rfl, by decide, by decide, by decide⟩
  | vlist l =>
    cases l with
    | nil =>
      simp only [dumpVal]
      exact ⟨'[', _, rfl, by decide, by decide, by decide⟩
    | cons x xs =>
      simp only [dumpVal]
      exact ⟨'[', _, rfl, by decide, by decide, by decide⟩
  | vdict m =>
    cases m with
    | nil =>
      simp only [dumpVal]
      exact ⟨'\x7b', _, rfl, by decide, by decide, by decide⟩
    | cons p ps =>
      simp only [dumpVal]
      exact ⟨'\x7b', _, rfl, by decide, by decide, by decide⟩

theorem skipWs_dump (k : Nat) (v : Val) (rest : List Char) :
    skipWs (dumpVal k v ++ rest) = dumpVal k v ++ rest := by
  obtain ⟨c, t, he, hws, _, _⟩ := dumpVal_head k v
  rw [he, List.cons_append, skipWs_not_ws _ _ hws]

theorem parseVal_ws (fuel : Nat) (p cs : List Char) (h : allWs p) :
    parseVal fuel (p ++ cs) = parseVal fuel cs := by
  cases fuel with
  | zero => simp [parseVal]
  | succ f => rw [parseVal, parseVal, skipWs_ws_append p cs h]

theorem parseItems_ws (fuel : Nat) (p cs : List Char) (h : allWs p) :
    parseItems fuel (p ++ cs) = parseItems fuel cs := by
  cases fuel with
  | zero => simp [parseItems]
  | succ f => rw [parseItems, parseItems, parseVal_ws f p cs h]

theorem parsePairs_ws (fuel : Nat) (p cs : List Char) (h : allWs p) :
    parsePairs fuel (p ++ cs) = parsePairs fuel cs := by
  cases fuel with
  | zero => simp [parsePairs]
  | succ f => rw [parsePairs, parsePairs, skipWs_ws_append p cs h]

theorem parse_natRepr_digits (n : Nat) (rest : List Char)
    (hrest : ∀ c t, rest = c :: t → isDigitChar c = false) :
    parseDigits 0 (natRepr n ++ rest) = (n, rest) := by
  rw [parseDigits_natRepr]
  have h0 : 0 * tenPow n + n = n := by omega
  rw [h0, parseDigits_stop _ _ hrest]

theorem parse_dump_null (f : Nat) (rest : List Char) :
    parseVal (f + 1) (('n' :: 'u' :: 'l' :: 'l' :: []) ++ rest) =
      some (.vnull, rest) := by
  rw [parseVal]
  simp +decide [skipWs, isWsChar, expectChars]

theorem parse_dump_true (f : Nat) (rest : List Char) :
    parseVal (f + 1) (('t' :: 'r' :: 'u' :: 'e' :: []) ++ rest) =
      some (.vbool true, rest) := by
  rw [parseVal]
  simp +decide [skipWs, isWsChar, expectChars]

theorem parse_dump_false (f : Nat) (rest : List Char) :
    parseVal (f + 1) (('f' :: 'a' :: 'l' :: 's' :: 'e' :: []) ++ rest) =
      some (.vbool false, rest) := by
  rw [parseVal]
  simp +decide [skipWs, isWsChar, expectChars]

theorem parse_dump_str (f : Nat) (s : String) (rest : List Char) :
    parseVal (f + 1) (quoteStr s ++ rest) = some (.vstr s, rest) := by
  have hq : quoteStr s ++ rest = '"' :: (escapeChars s.data ++ '"' :: rest) := by
    simp [quoteStr]
  rw [hq, parseVal, skipWs_not_ws _ _ (by decide)]
  simp +decide only [if_true, if_false, ite_true, ite_false]
  rw [parse_escapeChars]
  simp [string_mk_data]

theorem parse_dump_int (f : Nat) (i : Int) (rest : List Char)
    (hrest : delimOk rest) :
    parseVal (f + 1) (intRepr i ++ rest) = some (.vint i, rest) := by
  by_cases h : i < 0
  · rw [intRepr, if_pos h]
    obtain ⟨d, ds, hnat, hdig⟩ := natRepr_head (-i).toNat
    rw [List.cons_append, parseVal, skipWs_not_ws _ _ (by decide)]
    rw [hnat, List.cons_append]
    simp +decide only [if_true, if_false, ite_true, ite_false]
    rw [hdig]
    simp only [if_true, ite_true]
    rw [← List.cons_append, ← hnat,
      parse_natRepr_digits _ _ (delimOk_no_digit rest hrest)]
    have hi : -(((-i).toNat : Nat) : Int) = i := by omega
    simp only [hi, if_false, ite_false]
  · rw [intRepr, if_neg h]
    obtain ⟨d, ds, hnat, hdig⟩ := natRepr_head i.toNat
    obtain ⟨hws, hb1, hb2, hn, ht, hf2, hq, hbr, hbc, hmn, hcm⟩ :=
      isDigitChar_facts d hdig
    rw [hnat, List.cons_append, parseVal, skipWs_not_ws _ _ hws]
    simp only [hn, ht, hf2, hq, hbr, hbc, hmn, if_neg, ite_false,
      if_false, hdig, if_true, ite_true]
    rw [← List.cons_append, ← hnat,
      parse_natRepr_digits _ _ (delimOk_no_digit rest hrest)]
    have hi : ((i.toNat : Nat) : Int) = i := by omega
    simp only [hi, if_false, ite_false]

theorem fuelNeedItems_pos (x : Val) (xs : List Val) :
    1 ≤ fuelNeedItems x xs := by
  cases xs with
  | nil => simp [fuelNeedItems]
  | cons y ys => simp only [fuelNeedItems]; omega

theorem fuelNeedEntries_pos (p : String × Val) (qs : List (String × Val)) :
    1 ≤ fuelNeedEntries p qs := by
  obtain ⟨key, v⟩ := p
  cases qs with
  | nil => simp [fuelNeedEntries]
  | cons q qs2 => simp only [fuelNeedEntries]; omega

theorem allWs_single_nl : allWs ['\n'] := ⟨by decide, trivial⟩

theorem allWs_single_sp : allWs [' '] := ⟨by decide, trivial⟩

theorem skipWs_dumpItems (j : Nat) (x : Val) (xs : List Val) (z : List Char) :
    ∃ c t, skipWs (dumpItems j x xs ++ z) = c :: t ∧ c ≠ ']' ∧
      c ≠ '\x7d' := by
  obtain ⟨c, t, he, hws, h1, h2⟩ := dumpVal_head j x
  cases xs with
  | nil =>
    have hcalc : skipWs (dumpItems j x [] ++ z) = c :: (t ++ z) := by
      simp only [dumpItems, List.append_assoc, List.cons_append, List.nil_append, List.singleton_append]
      rw [he, List.cons_append, skipWs_indent, skipWs_not_ws _ _ hws]
    exact ⟨c, t ++ z, hcalc, h1, h2⟩
  | cons y ys =>
    have hcalc : skipWs (dumpItems j x (y :: ys) ++ z) =
        c :: (t ++ (',' :: '\n' :: (dumpItems j y ys ++ z))) := by
      simp only [dumpItems, List.append_assoc, List.cons_append, List.nil_append, List.singleton_append]
      rw [he, List.cons_append, skipWs_indent, skipWs_not_ws _ _ hws]
    exact ⟨c, _, hcalc, h1, h2⟩

theorem skipWs_dumpEntries (j : Nat) (p : String × Val)
    (qs : List (String × Val)) (z : List Char) :
    ∃ t, skipWs (dumpEntries j p qs ++ z) = '"' :: t := by
  obtain ⟨key, v⟩ := p
  cases qs with
  | nil =>
    have hcalc : skipWs (dumpEntries j (key, v) [] ++ z) =
        '"' :: (escapeChars key.data ++
          ('"' :: (':' :: ' ' :: (dumpVal j v ++ z)))) := by
      simp only [dumpEntries, quoteStr, List.append_assoc, List.cons_append,
        List.singleton_append, List.nil_append]
      rw [skipWs_indent, skipWs_not_ws _ _ (by decide)]
    exact ⟨_, hcalc⟩
  | cons q qs2 =>
    have hcalc : skipWs (dumpEntries j (key, v) (q :: qs2) ++ z) =
        '"' :: (escapeChars key.data ++
          ('"' :: (':' :: ' ' :: (dumpVal j v ++
            (',' :: '\n' :: (dumpEntries j q qs2 ++ z)))))) := by
      simp only [dumpEntries, quoteStr, List.append_assoc, List.cons_append,
        List.singleton_append, List.nil_append]
      rw [skipWs_indent, skipWs_not_ws _ _ (by decide)]
    exact ⟨_, hcalc⟩

mutual

/-- Parsing the dump of a value returns the value and the untouched
remainder, whenever the remainder starts with a JSON delimiter and the fuel
suffices. -/
theorem parse_dump (n : Nat) (v : Val) (k : Nat) (rest : List Char)
    (fuel : Nat) (hn : sizeOf v ≤ n) (hf : fuelNeed v ≤ fuel)
    (hrest : delimOk rest) :
    parseVal fuel (dumpVal k v ++ rest) = some (v, rest) := by
  obtain ⟨f, rfl⟩ : ∃ f, fuel = f + 1 :=
    ⟨fuel - 1, by have := fuelNeed_pos v; omega⟩
  cases v with
  | vnull =>
    simp only [dumpVal]
    exact parse_dump_null f rest
  | vbool b =>
    cases b with
    | true =>
      simp only [dumpVal]
      exact parse_dump_true f rest
    | false =>
      simp only [dumpVal]
      exact parse_dump_false f rest
  | vint i =>
    simp only [dumpVal]
    exact parse_dump_int f i rest hrest
  | vstr s =>
    simp only [dumpVal]
    exact parse_dump_str f s rest
  | vlist l =>
    cases l with
    | nil =>
      simp only [dumpVal, List.cons_append, List.nil_append]
      rw [parseVal, skipWs_not_ws _ _ (by decide)]
      simp +decide only [if_true, if_false, ite_true, ite_false]
      rw [skipWs_not_ws _ _ (by decide)]
      split
      · rename_i r heq
        injection heq with hh1 hh2
        rw [hh2]
      · rename_i hx hno
        exact absurd rfl (hno rest)
    | cons x xs =>
      have hf2 : fuelNeedItems x xs ≤ f := by
        simp only [fuelNeed] at hf
        omega
      simp only [Val.vlist.sizeOf_spec, List.cons.sizeOf_spec] at hn
      have hn2 : 1 + sizeOf x + sizeOf xs ≤ n - 1 := by omega
      have hpos : 0 < n := by omega
      simp only [dumpVal, List.append_assoc, List.cons_append,
        List.nil_append]
      rw [parseVal, skipWs_not_ws _ _ (by decide)]
      simp +decide only [if_true, if_false, ite_true, ite_false]
      rw [skipWs_newline]
      obtain ⟨c, t, hsk, hne1, hne2⟩ :=
        skipWs_dumpItems (k + 1) x xs ('\n' :: (indentChars k ++ (']' :: rest)))
      rw [hsk]
      split
      · next r heq =>
        exfalso
        injection heq with hh1 hh2
        exact hne1 hh1
      · rw [show ('\n' :: (dumpItems (k + 1) x xs ++
            ('\n' :: (indentChars k ++ (']' :: rest))))) =
            ['\n'] ++ (dumpItems (k + 1) x xs ++
            ('\n' :: (indentChars k ++ (']' :: rest)))) from rfl,
          parseItems_ws f _ _ allWs_single_nl,
          parse_dump_items (n - 1) x xs (k + 1) k rest f hn2 hf2]
        rfl
  | vdict m =>
    cases m with
    | nil =>
      simp only [dumpVal, List.cons_append, List.nil_append]
      rw [parseVal, skipWs_not_ws _ _ (by decide)]
      simp +decide only [if_true, if_false, ite_true, ite_false]
      rw [skipWs_not_ws _ _ (by decide)]
      split
      · rename_i r heq
        injection heq with hh1 hh2
        rw [hh2]
      · rename_i hx hno
        exact absurd rfl (hno rest)
    | cons p ps =>
      obtain ⟨key, v0⟩ := p
      have hf2 : fuelNeedEntries (key, v0) ps ≤ f := by
        simp only [fuelNeed] at hf
        omega
      simp only [Val.vdict.sizeOf_spec, List.cons.sizeOf_spec,
        Prod.mk.sizeOf_spec] at hn
      have hn2 : 1 + sizeOf v0 + sizeOf ps ≤ n - 1 := by omega
      have hpos : 0 < n := by omega
      simp only [dumpVal, List.append_assoc, List.cons_append,
        List.nil_append]
      rw [parseVal, skipWs_not_ws _ _ (by decide)]
      simp +decide only [if_true, if_false, ite_true, ite_false]
      rw [skipWs_newline]
      obtain ⟨t, hsk⟩ :=
        skipWs_dumpEntries (k + 1) (key, v0) ps
          ('\n' :: (indentChars k ++ ('\x7d' :: rest)))
      rw [hsk]
      split
      · rename_i r heq
        exfalso
        injection heq with hh1 hh2
        exact absurd hh1 (by decide)
      · rw [show ('\n' :: (dumpEntries (k + 1) (key, v0) ps ++
            ('\n' :: (indentChars k ++ ('\x7d' :: rest))))) =
            ['\n'] ++ (dumpEntries (k + 1) (key, v0) ps ++
            ('\n' :: (indentChars k ++ ('\x7d' :: rest)))) from rfl,
          parsePairs_ws f _ _ allWs_single_nl,
          parse_dump_entries (n - 1) key v0 ps (k + 1) k rest f hn2 hf2]
        rfl
termination_by n
decreasing_by all_goals omega

/-- Parsing the dumped items of a non-empty array, through the closing
bracket. -/
theorem parse_dump_items (n : Nat) (x : Val) (xs : List Val) (j k : Nat)
    (rest : List Char) (fuel : Nat) (hn : 1 + sizeOf x + sizeOf xs ≤ n)
    (hf : fuelNeedItems x xs ≤ fuel) :
    parseItems fuel
        (dumpItems j x xs ++ '\n' :: (indentChars k ++ (']' :: rest))) =
      some (x :: xs, rest) := by
  obtain ⟨f, rfl⟩ : ∃ f, fuel = f + 1 :=
    ⟨fuel - 1, by have := fuelNeedItems_pos x xs; omega⟩
  cases xs with
  | nil =>
    have hfx : fuelNeed x ≤ f := by
      simp only [fuelNeedItems] at hf
      omega
    have hnx : sizeOf x ≤ n - 1 := by omega
    have hpos : 0 < n := by omega
    rw [parseItems]
    simp only [dumpItems, List.append_assoc, List.cons_append, List.nil_append, List.singleton_append]
    rw [parseVal_ws f _ _ (allWs_indentChars j),
      parse_dump (n - 1) x j _ f hnx hfx (by simp [delimOk])]
    simp only []
    rw [skipWs_newline, skipWs_indent, skipWs_not_ws _ _ (by decide)]
    simp +decide only [if_true, if_false, ite_true, ite_false]
  | cons y ys =>
    have hfx : fuelNeed x ≤ f := by
      simp only [fuelNeedItems] at hf
      omega
    have hfy : fuelNeedItems y ys ≤ f := by
      simp only [fuelNeedItems] at hf
      omega
    simp only [List.cons.sizeOf_spec] at hn
    have hnx : sizeOf x ≤ n - 1 := by omega
    have hny : 1 + sizeOf y + sizeOf ys ≤ n - 1 := by omega
    have hpos : 0 < n := by omega
    rw [parseItems]
    simp only [dumpItems, List.append_assoc, List.cons_append, List.nil_append, List.singleton_append]
    rw [parseVal_ws f _ _ (allWs_indentChars j),
      parse_dump (n - 1) x j _ f hnx hfx (by simp [delimOk])]
    simp only []
    rw [skipWs_not_ws _ _ (by decide)]
    simp +decide only [if_true, if_false, ite_true, ite_false]
    rw [show ('\n' :: (dumpItems j y ys ++
        ('\n' :: (indentChars k ++ (']' :: rest))))) =
        ['\n'] ++ (dumpItems j y ys ++
        ('\n' :: (indentChars k ++ (']' :: rest)))) from rfl,
      parseItems_ws f _ _ allWs_single_nl,
      parse_dump_items (n - 1) y ys j k rest f hny hfy]
    rfl
termination_by n
decreasing_by all_goals omega

/-- Parsing the dumped entries of a non-empty object, through the closing
brace. -/
theorem parse_dump_entries (n : Nat) (key : String) (v : Val)
    (qs : List (String × Val)) (j k : Nat) (rest : List Char) (fuel : Nat)
    (hn : 1 + sizeOf v + sizeOf qs ≤ n)
    (hf : fuelNeedEntries (key, v) qs ≤ fuel) :
    parsePairs fuel
        (dumpEntries j (key, v) qs ++
          '\n' :: (indentChars k ++ ('\x7d' :: rest))) =
      some ((key, v) :: qs, rest) := by
  obtain ⟨f, rfl⟩ : ∃ f, fuel = f + 1 :=
    ⟨fuel - 1, by have := fuelNeedEntries_pos (key, v) qs; omega⟩
  cases qs with
  | nil =>
    have hfv : fuelNeed v ≤ f := by
      simp only [fuelNeedEntries] at hf
      omega
    have hnv : sizeOf v ≤ n - 1 := by omega
    have hpos : 0 < n := by omega
    rw [parsePairs]
    simp only [dumpEntries, quoteStr, List.append_assoc, List.cons_append, List.nil_append, List.singleton_append]
    rw [skipWs_indent, skipWs_not_ws _ _ (by decide)]
    simp +decide only [if_true, if_false, ite_true, ite_false]
    rw [parse_escapeChars]
    simp only []
    rw [skipWs_not_ws _ _ (by decide)]
    simp +decide only [if_true, if_false, ite_true, ite_false]
    rw [show (' ' :: (dumpVal j v ++
        ('\n' :: (indentChars k ++ ('\x7d' :: rest))))) =
        [' '] ++ (dumpVal j v ++
        ('\n' :: (indentChars k ++ ('\x7d' :: rest)))) from rfl,
      parseVal_ws f _ _ allWs_single_sp,
      parse_dump (n - 1) v j _ f hnv hfv (by simp [delimOk])]
    simp only []
    rw [skipWs_newline, skipWs_indent, skipWs_not_ws _ _ (by decide)]
    simp +decide only [string_mk_data]
  | cons q qs2 =>
    obtain ⟨qk, qv⟩ := q
    have hfv : fuelNeed v ≤ f := by
      simp only [fuelNeedEntries] at hf
      omega
    have hfq : fuelNeedEntries (qk, qv) qs2 ≤ f := by
      simp only [fuelNeedEntries] at hf
      omega
    simp only [List.cons.sizeOf_spec, Prod.mk.sizeOf_spec] at hn
    have hnv : sizeOf v ≤ n - 1 := by omega
    have hnq : 1 + sizeOf qv + sizeOf qs2 ≤ n - 1 := by omega
    have hpos : 0 < n := by omega
    rw [parsePairs]
    simp only [dumpEntries, quoteStr, List.append_assoc, List.cons_append, List.nil_append, List.singleton_append]
    rw [skipWs_indent, skipWs_not_ws _ _ (by decide)]
    simp +decide only [if_true, if_false, ite_true, ite_false]
    rw [parse_escapeChars]
    simp only []
    rw [skipWs_not_ws _ _ (by decide)]
    simp +decide only [if_true, if_false, ite_true, ite_false]
    rw [show (' ' :: (dumpVal j v ++ (',' :: '\n' :: (dumpEntries j (qk, qv) qs2 ++
        ('\n' :: (indentChars k ++ ('\x7d' :: rest))))))) =
        [' '] ++ (dumpVal j v ++ (',' :: '\n' :: (dumpEntries j (qk, qv) qs2 ++
        ('\n' :: (indentChars k ++ ('\x7d' :: rest)))))) from rfl,
      parseVal_ws f _ _ allWs_single_sp,
      parse_dump (n - 1) v j _ f hnv hfv (by simp [delimOk])]
    simp only []
    rw [skipWs_not_ws _ _ (by decide)]
    simp +decide only [if_true, if_false, ite_true, ite_false]
    rw [show ('\n' :: (dumpEntries j (qk, qv) qs2 ++
        ('\n' :: (indentChars k ++ ('\x7d' :: rest))))) =
        ['\n'] ++ (dumpEntries j (qk, qv) qs2 ++
        ('\n' :: (indentChars k ++ ('\x7d' :: rest)))) from rfl,
      parsePairs_ws f _ _ allWs_single_nl,
      parse_dump_entries (n - 1) qk qv qs2 j k rest f hnq hfq]
    simp only [string_mk_data, Option.map_some']
termination_by n
decreasing_by all_goals omega

end

mutual

/-- The fuel needed to parse a dump never exceeds the dump's length. -/
theorem fuelNeed_le_dumpLen (n : Nat) (v : Val) (k : Nat)
    (hn : sizeOf v ≤ n) : fuelNeed v ≤ (dumpVal k v).length := by
  cases v with
  | vnull => simp [fuelNeed, dumpVal]
  | vbool b => cases b <;> simp [fuelNeed, dumpVal]
  | vint i =>
    obtain ⟨c, t, hct, _⟩ := intRepr_head i
    simp [fuelNeed, dumpVal, hct]
  | vstr s => simp [fuelNeed, dumpVal, quoteStr]
  | vlist l =>
    cases l with
    | nil => simp [fuelNeed, dumpVal]
    | cons x xs =>
      simp only [Val.vlist.sizeOf_spec, List.cons.sizeOf_spec] at hn
      have hrec := fuelNeedItems_le_dumpLen (n - 1) x xs k (by omega)
      simp only [fuelNeed, dumpVal, List.length_append, List.length_cons]
      omega
  | vdict m =>
    cases m with
    | nil => simp [fuelNeed, dumpVal]
    | cons p ps =>
      obtain ⟨key, v0⟩ := p
      simp only [Val.vdict.sizeOf_spec, List.cons.sizeOf_spec,
        Prod.mk.sizeOf_spec] at hn
      have hrec := fuelNeedEntries_le_dumpLen (n - 1) key v0 ps k (by omega)
      simp only [fuelNeed, dumpVal, List.length_append, List.length_cons]
      omega
termination_by n
decreasing_by
  all_goals simp_wf
  all_goals
    first
    | omega
    | (simp only [Val.vlist.sizeOf_spec, Val.vdict.sizeOf_spec,
         List.cons.sizeOf_spec, Prod.mk.sizeOf_spec] at hn
       omega)

/-- Item-list version of `fuelNeed_le_dumpLen`. -/
theorem fuelNeedItems_le_dumpLen (n : Nat) (x : Val) (xs : List Val) (j : Nat)
    (hn : 1 + sizeOf x + sizeOf xs ≤ n) :
    fuelNeedItems x xs ≤ (dumpItems (j + 1) x xs).length := by
  cases xs with
  | nil =>
    have hrec := fuelNeed_le_dumpLen (n - 1) x (j + 1) (by omega)
    simp only [fuelNeedItems, dumpItems, List.length_append, indentChars,
      List.length_replicate]
    omega
  | cons y ys =>
    simp only [List.cons.sizeOf_spec] at hn
    have hrec := fuelNeed_le_dumpLen (n - 1) x (j + 1) (by omega)
    have hrec2 := fuelNeedItems_le_dumpLen (n - 1) y ys j (by omega)
    simp only [fuelNeedItems, dumpItems, List.length_append,
      List.length_cons, indentChars, List.length_replicate]
    omega
termination_by n
decreasing_by all_goals (simp_wf; omega)

/-- Entry-list version of `fuelNeed_le_dumpLen`. -/
theorem fuelNeedEntries_le_dumpLen (n : Nat) (key : String) (v : Val)
    (qs : List (String × Val)) (j : Nat)
    (hn : 1 + sizeOf v + sizeOf qs ≤ n) :
    fuelNeedEntries (key, v) qs ≤ (dumpEntries (j + 1) (key, v) qs).length := by
  cases qs with
  | nil =>
    have hrec := fuelNeed_le_dumpLen (n - 1) v (j + 1) (by omega)
    simp only [fuelNeedEntries, dumpEntries, List.length_append,
      List.length_cons, indentChars, List.length_replicate]
    omega
  | cons q qs2 =>
    obtain ⟨qk, qv⟩ := q
    simp only [List.cons.sizeOf_spec, Prod.mk.sizeOf_spec] at hn
    have hrec := fuelNeed_le_dumpLen (n - 1) v (j + 1) (by omega)
    have hrec2 := fuelNeedEntries_le_dumpLen (n - 1) qk qv qs2 j (by omega)
    simp only [fuelNeedEntries, dumpEntries, List.length_append,
      List.length_cons, indentChars, List.length_replicate]
    omega
termination_by n
decreasing_by all_goals (simp_wf; omega)

end

/-- Parsing a top-level dump with the fuel `jsonLoads` supplies. -/
theorem parseVal_dump_top (v : Val) :
    parseVal ((dumpVal 0 v).length + 1) (dumpVal 0 v) = some (v, []) := by
  have hfuel : fuelNeed v ≤ (dumpVal 0 v).length + 1 := by
    have := fuelNeed_le_dumpLen (sizeOf v) v 0 le_rfl
    omega
  have h := parse_dump (sizeOf v) v 0 [] ((dumpVal 0 v).length + 1)
    le_rfl hfuel trivial
  simpa using h

theorem strContains_parts (hay a needle b : String)
    (h : hay.data = a.data ++ needle.data ++ b.data) :
    strContains hay needle :=
  ⟨a.data, b.data, h.symm⟩

theorem strContains_trans (s1 s2 s3 : String) (h12 : strContains s2 s1)
    (h23 : strContains s3 s2) : strContains s3 s1 :=
  List.IsInfix.trans h12 h23

theorem mem_missingOf (config : List (String × Val)) (f : String) :
    f ∈ missingOf config ↔
      f ∈ REQUIRED_CONFIG_FIELDS ∧ dictContains config f = false := by
  simp [missingOf]

theorem dictContains_setdefault_ne (m : List (String × Val)) (k k2 : String)
    (v : Val) (h : k2 ≠ k) :
    dictContains (dictSetdefault m k v) k2 = dictContains m k2 := by
  unfold dictSetdefault
  split
  · rfl
  · simp [dictContains, List.any_append, (Ne.symm h : k ≠ k2)]

theorem dictGet_setdefault_ne (m : List (String × Val)) (k k2 : String)
    (v : Val) (h : k2 ≠ k) :
    dictGet (dictSetdefault m k v) k2 = dictGet m k2 := by
  unfold dictSetdefault
  split
  · rfl
  · have hsingle : List.find? (fun p => p.1 == k2) [(k, v)] = none := by
      simp [List.find?_eq_none]
      exact Ne.symm h
    simp [dictGet, List.find?_append, hsingle]

theorem dictContains_false_find? (m : List (String × Val)) (k : String)
    (h : dictContains m k = false) :
    m.find? (fun p => p.1 == k) = none := by
  induction m with
  | nil => rfl
  | cons q qs ih =>
    simp [dictContains] at h
    simp [List.find?_cons, h.1, ih (by simp [dictContains]; exact h.2)]

theorem dictGet_setdefault_self (m : List (String × Val)) (k : String)
    (v : Val) (h : dictContains m k = false) :
    dictGet (dictSetdefault m k v) k = some v := by
  unfold dictSetdefault
  rw [if_neg (by simp [h])]
  simp [dictGet, List.find?_append, dictContains_false_find? m k h]

theorem missingOf_setdefault_style (m : List (String × Val)) (v : Val) :
    missingOf (dictSetdefault m "style" v) = missingOf m := by
  unfold missingOf
  apply List.filter_congr
  intro f hf
  have hne : f ≠ "style" := by
    fin_cases hf <;> decide
  rw [dictContains_setdefault_ne m "style" f v hne]

theorem validate_error_of_missing (env : Env) (config : List (String × Val))
    (variant_name : String) (config_path : FPath)
    (h : missingOf config ≠ []) :
    validate_resume_config env config variant_name config_path =
      .error (.missingFields variant_name config_path (missingOf config)) := by
  have hne : (REQUIRED_CONFIG_FIELDS.filter
      (fun field => ! dictContains config field)).isEmpty = false := by
    rw [List.isEmpty_eq_false]
    simpa [missingOf] using h
  simp [validate_resume_config, hne, missingOf]

theorem missingFields_message_contains (variant_name : String)
    (config_path : FPath) (missing : List String) (f : String)
    (hf : f ∈ missing) :
    strContains (Err.missingFields variant_name config_path missing).message
      f := by
  simp only [Err.message]
  exact strContains_append_left _ _ _ (strContains_joinSep ", " missing f hf)

/-- C1: for every configuration record missing one or more of the required
fields `name`, `contact`, `experience`, `education`, validation fails with
the missing-fields error, and that error carries (and its message text
contains) every missing required field at once, not just the first. -/
theorem C1_validate_lists_every_missing_field (env : Env)
    (config : List (String × Val)) (variant_name : String)
    (config_path : FPath)
    (hmiss : ∃ f ∈ REQUIRED_CONFIG_FIELDS, dictContains config f = false) :
    validate_resume_config env config variant_name config_path =
      .error (.missingFields variant_name config_path (missingOf config)) ∧
    ∀ f ∈ REQUIRED_CONFIG_FIELDS, dictContains config f = false →
      f ∈ missingOf config ∧
      strContains (Err.missingFields variant_name config_path
        (missingOf config)).message f := by
  obtain ⟨f0, hf0, hnc0⟩ := hmiss
  have hne : missingOf config ≠ [] :=
    List.ne_nil_of_mem ((mem_missingOf config f0).mpr ⟨hf0, hnc0⟩)
  refine ⟨validate_error_of_missing env config variant_name config_path hne,
    fun f hf hnc => ?_⟩
  have hmem : f ∈ missingOf config := (mem_missingOf config f).mpr ⟨hf, hnc⟩
  exact ⟨hmem,
    missingFields_message_contains variant_name config_path _ f hmem⟩

/-- Closed witness for C1 at a concrete configuration missing `contact` and
`education`. -/
theorem C1_witness :
    (∃ f ∈ REQUIRED_CONFIG_FIELDS,
      dictContains [("name", Val.vstr "x"), ("experience", Val.vlist [])]
        f = false) ∧
    validate_resume_config
        (Env.mk (fun _ => .error "") (fun _ _ => .notFound) none
          (fun _ _ => ProcResult.mk 0 "" []) [] true [("default", "s")] [])
        [("name", Val.vstr "x"), ("experience", Val.vlist [])] "v"
        ["resumes", "v", "resume.yaml"] =
      .error (.missingFields "v" ["resumes", "v", "resume.yaml"]
        (missingOf [("name", Val.vstr "x"), ("experience", Val.vlist [])])) ∧
    "contact" ∈ missingOf [("name", Val.vstr "x"), ("experience", Val.vlist [])] ∧
    "education" ∈ missingOf [("name", Val.vstr "x"), ("experience", Val.vlist [])] := by
  have h := C1_validate_lists_every_missing_field
    (Env.mk (fun _ => .error "") (fun _ _ => .notFound) none
      (fun _ _ => ProcResult.mk 0 "" []) [] true [("default", "s")] [])
    [("name", Val.vstr "x"), ("experience", Val.vlist [])] "v"
    ["resumes", "v", "resume.yaml"]
    ⟨"contact", by decide, by decide⟩
  refine ⟨⟨"contact", by decide, by decide⟩, h.1, ?_, ?_⟩
  · exact (h.2 "contact" (by decide) (by decide)).1
  · exact (h.2 "education" (by decide) (by decide)).1

/-- C2: when a variant's configuration parses to a mapping that lacks the
required field `education`, the build fails with the missing-fields error
naming `education`, and the returned filesystem is exactly the input
filesystem: the build aborts before any directory is created, any template
is rendered, or any file is written (in particular nothing is written under
the variant's output directory). -/
theorem C2_missing_field_aborts_before_rendering (env : Env)
    (variant_directory : FPath) (fs : FS) (raw : String)
    (m0 : List (String × Val))
    (hread : fs.read? (variant_directory ++ ["resume.yaml"]) = some raw)
    (hyaml : env.yaml raw = .ok (.vdict m0))
    (hmiss : dictContains m0 "education" = false) :
    build_variant env variant_directory fs =
      .error (.missingFields (normalize_variant_name variant_directory)
        (variant_directory ++ ["resume.yaml"]) (missingOf m0), fs) ∧
    "education" ∈ missingOf m0 ∧
    strContains (Err.missingFields (normalize_variant_name variant_directory)
      (variant_directory ++ ["resume.yaml"]) (missingOf m0)).message
      "education" := by
  have hedu : "education" ∈ missingOf m0 :=
    (mem_missingOf m0 "education").mpr ⟨by decide, hmiss⟩
  have hne : missingOf (dictSetdefault m0 "style" defaultStyleVal) ≠ [] := by
    rw [missingOf_setdefault_style]
    exact List.ne_nil_of_mem hedu
  refine ⟨?_, hedu, missingFields_message_contains _ _ _ _ hedu⟩
  simp only [build_variant, hread, hyaml]
  rw [validate_error_of_missing env _ _ _ hne, missingOf_setdefault_style]

/-- Closed witness for C2: a concrete variant whose configuration lacks
`education`. -/
theorem C2_witness :
    build_variant
        (Env.mk (fun _ => .ok (.vdict [("name", Val.vstr "x"),
            ("contact", Val.vnull), ("experience", Val.vlist [])]))
          (fun _ _ => .notFound) none (fun _ _ => ProcResult.mk 0 "" [])
          [] true [("default", "s")] [])
        ["resumes", "acme"]
        (FS.mk [["resumes"], ["resumes", "acme"]]
          [(["resumes", "acme", "resume.yaml"], "cfg")]) =
      .error (.missingFields "acme" ["resumes", "acme", "resume.yaml"]
        (missingOf [("name", Val.vstr "x"), ("contact", Val.vnull),
          ("experience", Val.vlist [])]),
        FS.mk [["resumes"], ["resumes", "acme"]]
          [(["resumes", "acme", "resume.yaml"], "cfg")]) := by
  exact (C2_missing_field_aborts_before_rendering _ _ _ "cfg" _
    (by simp [FS.read?, List.find?]) rfl (by decide)).1

theorem dictContains_setdefault_self (m : List (String × Val)) (k : String)
    (v : Val) : dictContains (dictSetdefault m k v) k = true := by
  unfold dictSetdefault
  split
  · assumption
  · simp [dictContains, List.any_append]

theorem validate_ok_of (env : Env) (config : List (String × Val))
    (style : List (String × Val)) (variant_name : String) (config_path : FPath)
    (hmiss : missingOf config = [])
    (hstyle : dictGet config "style" = some (.vdict style))
    (hcontains : dictContains config "style" = true)
    (hbase : (availableStyles env).contains
      (pyStr (dictGetD style "base" (.vstr "default"))) = true) :
    validate_resume_config env config variant_name config_path = .ok () := by
  have hemp : (REQUIRED_CONFIG_FIELDS.filter
      (fun field => ! dictContains config field)).isEmpty = true := by
    have : missingOf config = [] := hmiss
    simp [missingOf] at this
    simp [List.isEmpty_iff, List.filter_eq_nil_iff]
    exact this
  simp [validate_resume_config, hemp, hcontains, hstyle, hbase]
  exact List.elem_iff.mp hbase

/-- C3: for a configuration record omitting `style`, the loader injects the
default `{base: "default", override: null}` by appending it (all other keys
and their values are unchanged), and validation then passes whenever the
required fields are present and a `default` style resource exists. -/
theorem C3_default_style_injected_and_validates (env : Env)
    (m0 : List (String × Val)) (variant_name : String) (config_path : FPath)
    (hnostyle : dictContains m0 "style" = false)
    (hreq : ∀ f ∈ REQUIRED_CONFIG_FIELDS, dictContains m0 f = true)
    (hdefault : "default" ∈ availableStyles env) :
    dictSetdefault m0 "style" defaultStyleVal =
      m0 ++ [("style", defaultStyleVal)] ∧
    (∀ k, k ≠ "style" →
      dictGet (dictSetdefault m0 "style" defaultStyleVal) k = dictGet m0 k) ∧
    validate_resume_config env (dictSetdefault m0 "style" defaultStyleVal)
      variant_name config_path = .ok () := by
  refine ⟨by simp [dictSetdefault, hnostyle], fun k hk =>
    dictGet_setdefault_ne m0 "style" k defaultStyleVal hk, ?_⟩
  apply validate_ok_of env _ [("base", Val.vstr "default"),
    ("override", Val.vnull)] variant_name config_path
  · rw [missingOf_setdefault_style]
    simp [missingOf, List.filter_eq_nil_iff]
    intro f hf
    simp [hreq f hf]
  · exact dictGet_setdefault_self m0 "style" defaultStyleVal hnostyle
  · exact dictContains_setdefault_self m0 "style" defaultStyleVal
  · have : pyStr (dictGetD [("base", Val.vstr "default"),
        ("override", Val.vnull)] "base" (.vstr "default")) = "default" := by
      simp [dictGetD, dictGet, List.find?, pyStr]
    rw [this]
    exact List.elem_iff.mpr hdefault

/-- Closed witness for C3. -/
theorem C3_witness :
    dictSetdefault [("name", Val.vstr "x"), ("contact", Val.vnull),
        ("experience", Val.vlist []), ("education", Val.vlist [])]
        "style" defaultStyleVal =
      [("name", Val.vstr "x"), ("contact", Val.vnull),
        ("experience", Val.vlist []), ("education", Val.vlist [])] ++
        [("style", defaultStyleVal)] ∧
    validate_resume_config
        (Env.mk (fun _ => .error "") (fun _ _ => .notFound) none
          (fun _ _ => ProcResult.mk 0 "" []) [] true [("default", "s")] [])
        (dictSetdefault [("name", Val.vstr "x"), ("contact", Val.vnull),
          ("experience", Val.vlist []), ("education", Val.vlist [])]
          "style" defaultStyleVal) "v" ["resumes", "v", "resume.yaml"] =
      .ok () := by
  have h := C3_default_style_injected_and_validates
    (Env.mk (fun _ => .error "") (fun _ _ => .notFound) none
      (fun _ _ => ProcResult.mk 0 "" []) [] true [("default", "s")] [])
    [("name", Val.vstr "x"), ("contact", Val.vnull),
      ("experience", Val.vlist []), ("education", Val.vlist [])]
    "v" ["resumes", "v", "resume.yaml"] (by decide)
    (by intro f hf; fin_cases hf <;> decide) (by simp [availableStyles])
  exact ⟨h.1, h.2.2⟩

/-- C4 counterexample: a configuration whose `style.base` names a
nonexistent style resource but which is also missing required fields fails
validation with the missing-fields error, whose message contains neither
the requested style name nor the enumeration of available styles — so the
claim does not hold for every configuration with a bad style reference. -/
theorem C4_counterexample :
    ¬ ("nope" ∈ availableStyles
      (Env.mk (fun _ => .error "") (fun _ _ => .notFound) none
        (fun _ _ => ProcResult.mk 0 "" []) [] true [("default", "s")] [])) ∧
    validate_resume_config
        (Env.mk (fun _ => .error "") (fun _ _ => .notFound) none
          (fun _ _ => ProcResult.mk 0 "" []) [] true [("default", "s")] [])
        [("style", Val.vdict [("base", Val.vstr "nope")])] "v"
        ["resumes", "v", "resume.yaml"] =
      .error (.missingFields "v" ["resumes", "v", "resume.yaml"]
        ["name", "contact", "experience", "education"]) ∧
    ¬ strContains (Err.missingFields "v" ["resumes", "v", "resume.yaml"]
      ["name", "contact", "experience", "education"]).message "nope" ∧
    ¬ strContains (Err.missingFields "v" ["resumes", "v", "resume.yaml"]
      ["name", "contact", "experience", "education"]).message
      "Available styles" := by
  refine ⟨by decide, rfl, by decide, by decide⟩

/-- C4 (amended): for every configuration with all required fields present
whose `style` is a mapping and whose `style.base` names a style resource
that does not exist, validation fails with the style-not-found error, and
the error message contains both the requested style name and every
available style resource name. -/
theorem C4_amended_style_error_enumerates (env : Env)
    (config : List (String × Val)) (style : List (String × Val))
    (variant_name : String) (config_path : FPath)
    (hreq : ∀ f ∈ REQUIRED_CONFIG_FIELDS, dictContains config f = true)
    (hstyle : dictGet config "style" = some (.vdict style))
    (hcontains : dictContains config "style" = true)
    (hbad : (availableStyles env).contains
      (pyStr (dictGetD style "base" (.vstr "default"))) = false) :
    validate_resume_config env config variant_name config_path =
      .error (.styleNotFound variant_name config_path
        (pyStr (dictGetD style "base" (.vstr "default")))
        (availableStyles env)) ∧
    strContains (Err.styleNotFound variant_name config_path
        (pyStr (dictGetD style "base" (.vstr "default")))
        (availableStyles env)).message
      (pyStr (dictGetD style "base" (.vstr "default"))) ∧
    ∀ s ∈ availableStyles env,
      strContains (Err.styleNotFound variant_name config_path
        (pyStr (dictGetD style "base" (.vstr "default")))
        (availableStyles env)).message s := by
  have hemp : (REQUIRED_CONFIG_FIELDS.filter
      (fun field => ! dictContains config field)).isEmpty = true := by
    simp [List.isEmpty_iff, List.filter_eq_nil_iff]
    intro f hf
    simp [hreq f hf]
  refine ⟨?_, ?_, ?_⟩
  · simp [validate_resume_config, hemp, hcontains, hstyle, hbad]
    intro hm
    simp at hbad
    exact hbad hm
  · apply strContains_parts _
      ("Style file not found for variant \x27" ++ variant_name ++
        "\x27\n  Config file: " ++ pathStr config_path ++
        "\n  Requested style: \x27") _
      ("\x27\n  Available styles: " ++
        joinSep ", " (pySorted (availableStyles env)))
    simp [Err.message, data_append, List.append_assoc]
  · intro s hs
    have hsorted : s ∈ pySorted (availableStyles env) :=
      ((List.perm_insertionSort (fun a b => a ≤ b)
        (availableStyles env)).mem_iff).mpr hs
    simp only [Err.message]
    exact strContains_append_left _ _ _
      (strContains_joinSep ", " _ s hsorted)

/-- Closed witness for the amended C4. -/
theorem C4_amended_witness :
    validate_resume_config
        (Env.mk (fun _ => .error "") (fun _ _ => .notFound) none
          (fun _ _ => ProcResult.mk 0 "" []) [] true
          [("default", "s"), ("classic", "c")] [])
        [("name", Val.vstr "x"), ("contact", Val.vnull),
          ("experience", Val.vlist []), ("education", Val.vlist []),
          ("style", Val.vdict [("base", Val.vstr "nope")])] "v"
        ["resumes", "v", "resume.yaml"] =
      .error (.styleNotFound "v" ["resumes", "v", "resume.yaml"] "nope"
        ["default", "classic"]) ∧
    strContains (Err.styleNotFound "v" ["resumes", "v", "resume.yaml"]
      "nope" ["default", "classic"]).message "nope" ∧
    strContains (Err.styleNotFound "v" ["resumes", "v", "resume.yaml"]
      "nope" ["default", "classic"]).message "default" ∧
    strContains (Err.styleNotFound "v" ["resumes", "v", "resume.yaml"]
      "nope" ["default", "classic"]).message "classic" := by
  have h := C4_amended_style_error_enumerates
    (Env.mk (fun _ => .error "") (fun _ _ => .notFound) none
      (fun _ _ => ProcResult.mk 0 "" []) [] true
      [("default", "s"), ("classic", "c")] [])
    [("name", Val.vstr "x"), ("contact", Val.vnull),
      ("experience", Val.vlist []), ("education", Val.vlist []),
      ("style", Val.vdict [("base", Val.vstr "nope")])]
    [("base", Val.vstr "nope")] "v" ["resumes", "v", "resume.yaml"]
    (by intro f hf; fin_cases hf <;> decide) rfl (by decide) (by decide)
  exact ⟨h.1, h.2.1, h.2.2 "default" (by decide), h.2.2 "classic" (by decide)⟩

theorem read?_writeFile_self (fs : FS) (p : FPath) (c : String) :
    (fs.writeFile p c).read? p = some c := by
  simp [FS.read?, FS.writeFile, List.find?_cons]

/-- C5 counterexample: a render invocation whose expansion succeeds
nevertheless fails when the destination's parent directory does not exist —
`render_template` does not create parent directories, contrary to the
claim that rendering succeeds even then. -/
theorem C5_counterexample :
    (Env.mk (fun _ => .error "") (fun _ _ => .ok "content") none
      (fun _ _ => ProcResult.mk 0 "" []) [] true [] []).render
      "engine/html/resume.html.j2" (Val.vdict []) = .ok "content" ∧
    render_template
        (Env.mk (fun _ => .error "") (fun _ _ => .ok "content") none
          (fun _ _ => ProcResult.mk 0 "" []) [] true [] [])
        "engine/html/resume.html.j2"
        ["resumes", "v", "output", "resume.html"]
        (Val.vdict []) "v" (FS.mk [] []) =
      .error (.templateOther "engine/html/resume.html.j2"
        ["resumes", "v", "output", "resume.html"] "v" "FileNotFoundError"
        (fnfMsg ["resumes", "v", "output", "resume.html"]), FS.mk [] []) :=
  ⟨rfl, rfl⟩

/-- C5 (amended): the renderer delegates expansion to the templating
collaborator and writes the result as text to the destination, provided the
destination's parent directory already exists; when the parent directory
does not exist it fails with the wrapped `FileNotFoundError` instead of
creating it. -/
theorem C5_amended_render_requires_parent (env : Env)
    (template_path : String) (output_path : FPath) (context : Val)
    (variant_name : String) (fs : FS) (content : String)
    (hok : env.render template_path context = .ok content) :
    (fs.hasDir (parentDir output_path) = true →
      render_template env template_path output_path context variant_name
          fs = .ok (fs.writeFile output_path content) ∧
      (fs.writeFile output_path content).read? output_path = some content) ∧
    (fs.hasDir (parentDir output_path) = false →
      render_template env template_path output_path context variant_name
          fs = .error (.templateOther template_path output_path variant_name
        "FileNotFoundError" (fnfMsg output_path), fs)) := by
  constructor
  · intro h
    exact ⟨by simp [render_template, hok, h], read?_writeFile_self fs _ _⟩
  · intro h
    simp [render_template, hok, h]

/-- Closed witness for the amended C5. -/
theorem C5_amended_witness :
    (FS.mk [["resumes"], ["resumes", "v"], ["resumes", "v", "output"]]
      []).hasDir (parentDir ["resumes", "v", "output", "resume.html"]) =
      true ∧
    render_template
        (Env.mk (fun _ => .error "") (fun _ _ => .ok "content") none
          (fun _ _ => ProcResult.mk 0 "" []) [] true [] [])
        "engine/html/resume.html.j2"
        ["resumes", "v", "output", "resume.html"] (Val.vdict []) "v"
        (FS.mk [["resumes"], ["resumes", "v"], ["resumes", "v", "output"]]
          []) =
      .ok ((FS.mk [["resumes"], ["resumes", "v"],
          ["resumes", "v", "output"]] []).writeFile
        ["resumes", "v", "output", "resume.html"] "content") ∧
    ((FS.mk [["resumes"], ["resumes", "v"], ["resumes", "v", "output"]]
        []).writeFile ["resumes", "v", "output", "resume.html"]
        "content").read? ["resumes", "v", "output", "resume.html"] =
      some "content" := by
  have h := C5_amended_render_requires_parent
    (Env.mk (fun _ => .error "") (fun _ _ => .ok "content") none
      (fun _ _ => ProcResult.mk 0 "" []) [] true [] [])
    "engine/html/resume.html.j2" ["resumes", "v", "output", "resume.html"]
    (Val.vdict []) "v"
    (FS.mk [["resumes"], ["resumes", "v"], ["resumes", "v", "output"]] [])
    "content" rfl
  exact ⟨by decide, (h.1 (by decide)).1, (h.1 (by decide)).2⟩

/-- C6: round-trip of the canonical JSON dump. `buildVariantSteps` writes
`jsonDumps (Val.vdict config)` (the model of
`json.dumps(config, indent=2, ensure_ascii=False)`) to
`output/resume.md`; parsing that dump with `jsonLoads` (the model of
`json.loads`) yields a record equal to the validated in-memory
configuration. The well-formedness hypothesis restricts the statement to
values with duplicate-free mapping keys — the only values a parsed YAML
mapping (a Python dict) can be. -/
theorem C6_json_roundtrip (v : Val) (_hwf : Val.wfb v = true) :
    jsonLoads (jsonDumps v) = some v := by
  simp only [jsonLoads, jsonDumps]
  rw [parseVal_dump_top v]
  simp [skipWs]

/-- Closed witness for C6. -/
theorem C6_witness :
    Val.wfb sampleResumeConfig = true ∧
    jsonLoads (jsonDumps sampleResumeConfig) = some sampleResumeConfig := by
  constructor
  · simp [sampleResumeConfig, Val.wfb, wfbList, wfbDict, dictContains]
  · exact C6_json_roundtrip sampleResumeConfig
      (by simp [sampleResumeConfig, Val.wfb, wfbList, wfbDict, dictContains])

theorem hasDir_mkdirParents_self (fs : FS) (p : FPath) :
    (fs.mkdirParents p).hasDir p = true := by
  apply List.elem_iff.mpr
  apply List.mem_append.mpr
  left
  simp only [pathPrefixes, List.mem_map, List.mem_range]
  exact ⟨p.length, by omega, List.take_length p⟩

/-- C7: when every variant build completed, the site publisher rewrites
`site/index.html` in full from the variant names alone (for every prior
filesystem state, the resulting content is `siteIndexHtml variant_names`,
independent of any previous index content), and that content embeds exactly
one link per built variant, listed in sorted order of variant name. -/
theorem C7_site_index (variant_names : List String) (fs : FS)
    (hnodup : variant_names.Nodup) :
    write_site_index variant_names fs =
      .ok ((fs.mkdirParents SITE_DIR).writeFile (SITE_DIR ++ ["index.html"])
        (siteIndexHtml variant_names)) ∧
    ((fs.mkdirParents SITE_DIR).writeFile (SITE_DIR ++ ["index.html"])
        (siteIndexHtml variant_names)).read? (SITE_DIR ++ ["index.html"]) =
      some (siteIndexHtml variant_names) ∧
    siteIndexHtml variant_names =
      SITE_INDEX_PREFIX ++
        joinSep "\n" ((pySorted variant_names).map mkVariantLink) ++
        SITE_INDEX_SUFFIX ∧
    (pySorted variant_names).Perm variant_names ∧
    List.Sorted (fun a b => a ≤ b) (pySorted variant_names) ∧
    (∀ name ∈ variant_names, (pySorted variant_names).count name = 1) ∧
    (∀ name, name ∉ variant_names →
      (pySorted variant_names).count name = 0) := by
  have hdir : (fs.mkdirParents SITE_DIR).hasDir
      (parentDir (SITE_DIR ++ ["index.html"])) = true := by
    rw [show parentDir (SITE_DIR ++ ["index.html"]) = SITE_DIR from rfl]
    exact hasDir_mkdirParents_self fs SITE_DIR
  have hperm := List.perm_insertionSort (fun a b => a ≤ b) variant_names
  refine ⟨by simp [write_site_index, hdir], read?_writeFile_self _ _ _,
    rfl, hperm, List.sorted_insertionSort _ _, fun name hname => ?_,
    fun name hname => ?_⟩
  · simp only [pySorted]
    rw [hperm.count_eq]
    exact List.count_eq_one_of_mem hnodup hname
  · simp only [pySorted]
    rw [hperm.count_eq]
    exact List.count_eq_zero.mpr hname

/-- Closed witness for C7: two variant names, linked once each in sorted
order. -/
theorem C7_witness :
    (["web", "acme"] : List String).Nodup ∧
    write_site_index ["web", "acme"] (FS.mk [] []) =
      .ok (((FS.mk [] []).mkdirParents SITE_DIR).writeFile
        (SITE_DIR ++ ["index.html"]) (siteIndexHtml ["web", "acme"])) ∧
    (pySorted ["web", "acme"]).Perm ["web", "acme"] ∧
    (pySorted ["web", "acme"]).count "acme" = 1 ∧
    (pySorted ["web", "acme"]).count "zzz" = 0 := by
  have h := C7_site_index ["web", "acme"] (FS.mk [] []) (by decide)
  exact ⟨by decide, h.1, h.2.2.2.1,
    h.2.2.2.2.2.1 "acme" (by decide),
    h.2.2.2.2.2.2 "zzz" (by decide)⟩

theorem commandFailed_log_contained (ctx : String) (command : List String)
    (rc : Int) (out : String) (logs : List String) (name content : String)
    (hblock : ("\n===== " ++ name ++ " =====\n" ++ content) ∈ logs) :
    strContains (Err.commandFailed ctx command rc out logs).message
      content := by
  have hone : strContains ("\n===== " ++ name ++ " =====\n" ++ content)
      content :=
    strContains_of_eq ("\n===== " ++ name ++ " =====\n") content "" _
      (by simp)
  have htwo : strContains (joinSep "\n" logs) content :=
    strContains_trans content _ _ hone
      (strContains_joinSep "\n" logs _ hblock)
  have hni : logs.isEmpty = false := by
    cases logs with
    | nil => cases hblock
    | cons a l => rfl
  simp only [Err.message, hni, Bool.false_eq_true, if_false, ite_false]
  exact strContains_append_left _ _ _
    (strContains_append_left _ _ _ htwo)

theorem commandFailed_stdout_contained (ctx : String)
    (command : List String) (rc : Int) (out : String) (logs : List String) :
    strContains (Err.commandFailed ctx command rc out logs).message out := by
  apply strContains_parts _
    ((if ctx = "" then "Command failed" else ctx) ++ "\nCommand: " ++
      joinSep " " command ++ "\nExit code: " ++ String.mk (intRepr rc) ++
      "\nOutput:\n") _
    (if logs.isEmpty then "" else "\n\nLaTeX logs:\n" ++ joinSep "\n" logs)
  simp [Err.message, data_append, List.append_assoc]

/-- C9: whenever the external compiler subprocess exits non-zero,
`run_command` raises the compilation error, whose message contains the full
captured process output and the contents of every compiler log file
(`resume.log`, `texput.log` — the logs the compiler produces) present in
the build directory after the run. The error is raised with the captured
output regardless of which (if any) log files exist: absent logs are
skipped, never an error. -/
theorem C9_command_failure_diagnostics (env : Env) (command : List String)
    (wd : FPath) (error_context : String) (fs : FS)
    (hfail : (env.runProc command wd).returncode ≠ 0) :
    run_command env command (some wd) error_context fs =
      .error (.commandFailed error_context command
          (env.runProc command wd).returncode
          (env.runProc command wd).stdout
          (logBlocks wd
            (applyProcWrites wd (env.runProc command wd).filesWritten fs)),
        applyProcWrites wd (env.runProc command wd).filesWritten fs) ∧
    strContains (Err.commandFailed error_context command
        (env.runProc command wd).returncode
        (env.runProc command wd).stdout
        (logBlocks wd
          (applyProcWrites wd (env.runProc command wd).filesWritten
            fs))).message
      (env.runProc command wd).stdout ∧
    ∀ log_name ∈ LOG_NAMES, ∀ content,
      (applyProcWrites wd (env.runProc command wd).filesWritten fs).read?
        (wd ++ [log_name]) = some content →
      strContains (Err.commandFailed error_context command
          (env.runProc command wd).returncode
          (env.runProc command wd).stdout
          (logBlocks wd
            (applyProcWrites wd (env.runProc command wd).filesWritten
              fs))).message content := by
  refine ⟨by simp [run_command, hfail], commandFailed_stdout_contained _ _ _ _ _,
    fun log_name hname content hcontent => ?_⟩
  apply commandFailed_log_contained _ _ _ _ _ log_name content
  simp only [logBlocks, List.mem_filterMap]
  exact ⟨log_name, hname, by rw [hcontent]; rfl⟩

/-- Closed witness for C9: a failing compiler run with `resume.log`
present; its content and the captured output both appear in the message. -/
theorem C9_witness :
    ((Env.mk (fun _ => .error "") (fun _ _ => .notFound) none
      (fun _ _ => ProcResult.mk 1 "boom" [(["resume.log"], "logtext")])
      [] true [] []).runProc ["tectonic"] ["resumes", "v", "build"]).returncode ≠ 0 ∧
    strContains (Err.commandFailed "ctx" ["tectonic"] 1 "boom"
      (logBlocks ["resumes", "v", "build"]
        (applyProcWrites ["resumes", "v", "build"]
          [(["resume.log"], "logtext")] (FS.mk [] [])))).message "boom" ∧
    strContains (Err.commandFailed "ctx" ["tectonic"] 1 "boom"
      (logBlocks ["resumes", "v", "build"]
        (applyProcWrites ["resumes", "v", "build"]
          [(["resume.log"], "logtext")] (FS.mk [] [])))).message
      "logtext" := by
  have h := C9_command_failure_diagnostics
    (Env.mk (fun _ => .error "") (fun _ _ => .notFound) none
      (fun _ _ => ProcResult.mk 1 "boom" [(["resume.log"], "logtext")])
      [] true [] [])
    ["tectonic"] ["resumes", "v", "build"] "ctx" (FS.mk [] [])
    (by decide)
  exact ⟨by decide, h.2.1,
    h.2.2 "resume.log" (by decide) "logtext" (by decide)⟩

theorem build_variant_nonmapping (env : Env) (variant_directory : FPath)
    (fs : FS) (raw : String) (v : Val)
    (hread : fs.read? (variant_directory ++ ["resume.yaml"]) = some raw)
    (hyaml : env.yaml raw = .ok v) (hnotdict : ∀ m, v ≠ .vdict m) :
    build_variant env variant_directory fs =
      .error (.attrError (pyTypeName v) "setdefault", fs) := by
  cases v with
  | vdict m => exact absurd rfl (hnotdict m)
  | vnull => simp [build_variant, hread, hyaml]
  | vbool b => simp [build_variant, hread, hyaml]
  | vint i => simp [build_variant, hread, hyaml]
  | vstr s => simp [build_variant, hread, hyaml]
  | vlist l => simp [build_variant, hread, hyaml]

/-- C10 (implicit): when the parsed configuration is not a mapping (an
empty file parses to null; a bare scalar to a string or number), the
default-style injection (`config.setdefault`) raises an `AttributeError`
that escapes unhandled: the resulting error is not one of the documented
parse/validation errors, and it carries no variant-name or file-path
attribution — it is the same error value for every variant directory and
configuration path. -/
theorem C10_nonmapping_config_unattributed (env : Env)
    (variant_directory : FPath) (fs : FS) (raw : String) (v : Val)
    (hread : fs.read? (variant_directory ++ ["resume.yaml"]) = some raw)
    (hyaml : env.yaml raw = .ok v) (hnotdict : ∀ m, v ≠ .vdict m) :
    build_variant env variant_directory fs =
      .error (.attrError (pyTypeName v) "setdefault", fs) ∧
    (∀ (vd2 : FPath) (fs2 : FS) (raw2 : String),
      fs2.read? (vd2 ++ ["resume.yaml"]) = some raw2 →
      env.yaml raw2 = .ok v →
      build_variant env vd2 fs2 =
        .error (.attrError (pyTypeName v) "setdefault", fs2)) ∧
    (Err.attrError (pyTypeName v) "setdefault").message =
      "\x27" ++ pyTypeName v ++ "\x27 object has no attribute \x27" ++
        "setdefault" ++ "\x27" ∧
    (∀ vn cp emsg,
      Err.attrError (pyTypeName v) "setdefault" ≠ .yamlParse vn cp emsg) ∧
    (∀ vn cp missing,
      Err.attrError (pyTypeName v) "setdefault" ≠
        .missingFields vn cp missing) := by
  refine ⟨build_variant_nonmapping env variant_directory fs raw v hread
      hyaml hnotdict,
    fun vd2 fs2 raw2 h1 h2 =>
      build_variant_nonmapping env vd2 fs2 raw2 v h1 h2 hnotdict,
    by simp [Err.message], fun vn cp emsg h => Err.noConfusion h,
    fun vn cp missing h => Err.noConfusion h⟩

/-- Closed witness for C10: an empty configuration file parsing to null. -/
theorem C10_witness :
    build_variant
        (Env.mk (fun _ => .ok .vnull) (fun _ _ => .notFound) none
          (fun _ _ => ProcResult.mk 0 "" []) [] true [("default", "s")] [])
        ["resumes", "acme"]
        (FS.mk [["resumes"], ["resumes", "acme"]]
          [(["resumes", "acme", "resume.yaml"], "")]) =
      .error (.attrError "NoneType" "setdefault",
        FS.mk [["resumes"], ["resumes", "acme"]]
          [(["resumes", "acme", "resume.yaml"], "")]) ∧
    (Err.attrError "NoneType" "setdefault").message =
      "\x27NoneType\x27 object has no attribute \x27setdefault\x27" := by
  have h := C10_nonmapping_config_unattributed
    (Env.mk (fun _ => .ok .vnull) (fun _ _ => .notFound) none
      (fun _ _ => ProcResult.mk 0 "" []) [] true [("default", "s")] [])
    ["resumes", "acme"]
    (FS.mk [["resumes"], ["resumes", "acme"]]
      [(["resumes", "acme", "resume.yaml"], "")]) "" .vnull
    (by simp [FS.read?, List.find?]) rfl (fun m h => Val.noConfusion h)
  exact ⟨h.1, h.2.2.1⟩

theorem find?_filter_ne (files : List (FPath × String)) (p q : FPath)
    (h : q ≠ p) :
    (files.filter (fun r => r.1 != q)).find? (fun r => r.1 == p) =
      files.find? (fun r => r.1 == p) := by
  induction files with
  | nil => rfl
  | cons r rs ih =>
    by_cases hrq : r.1 = q
    · have h2 : (r.1 == p) = false := by
        simp [hrq]
        exact h
      have hq : (q == p) = false := by simp [h]
      simp [List.filter_cons, hrq, List.find?_cons, h2, hq, ih]
    · by_cases hrp : r.1 = p
      · simp [List.filter_cons, hrq, List.find?_cons, hrp, Ne.symm h]
      · simp [List.filter_cons, hrq, List.find?_cons, hrp, ih]

theorem read?_writeFile_ne (fs : FS) (p q : FPath) (c : String)
    (h : q ≠ p) : (fs.writeFile q c).read? p = fs.read? p := by
  have hq : (q == p) = false := by simp [h]
  simp [FS.writeFile, FS.read?, List.find?_cons, hq,
    find?_filter_ne fs.files p q h]

theorem read?_mkdirParents (fs : FS) (d p : FPath) :
    (fs.mkdirParents d).read? p = fs.read? p := rfl

theorem read?_applyProcWrites (wd : FPath) (writes : List (FPath × String))
    (fs : FS) (p : FPath) (hne : ∀ q ∈ writes, wd ++ q.1 ≠ p) :
    (applyProcWrites wd writes fs).read? p = fs.read? p := by
  induction writes generalizing fs with
  | nil => rfl
  | cons w ws ih =>
    have hstep : applyProcWrites wd (w :: ws) fs =
        applyProcWrites wd ws (fs.writeFile (wd ++ w.1) w.2) := rfl
    rw [hstep, ih _ (fun q hq => hne q (List.mem_cons_of_mem _ hq)),
      read?_writeFile_ne _ _ _ _ (hne w (List.mem_cons_self _ _))]

theorem read?_styleCopies (build_dir : FPath) (sf : List (String × String))
    (fs : FS) (p : FPath)
    (hne : ∀ q ∈ sf, build_dir ++ [q.1 ++ ".sty"] ≠ p) :
    (sf.foldl (fun acc q => acc.writeFile (build_dir ++ [q.1 ++ ".sty"]) q.2)
      fs).read? p = fs.read? p := by
  induction sf generalizing fs with
  | nil => rfl
  | cons w ws ih =>
    have hstep : (w :: ws).foldl
        (fun acc q => acc.writeFile (build_dir ++ [q.1 ++ ".sty"]) q.2) fs =
        ws.foldl (fun acc q => acc.writeFile (build_dir ++ [q.1 ++ ".sty"]) q.2)
          (fs.writeFile (build_dir ++ [w.1 ++ ".sty"]) w.2) := rfl
    rw [hstep, ih _ (fun q hq => hne q (List.mem_cons_of_mem _ hq)),
      read?_writeFile_ne _ _ _ _ (hne w (List.mem_cons_self _ _))]

theorem read?_engineFold (dst : FPath) (entries : List (FPath × String))
    (fs : FS) (p : FPath) (hne : ∀ q ∈ entries, dst ++ q.1 ≠ p) :
    (entries.foldl (fun acc q =>
      (acc.mkdirParents (parentDir (dst ++ q.1))).writeFile (dst ++ q.1) q.2)
      fs).read? p = fs.read? p := by
  induction entries generalizing fs with
  | nil => rfl
  | cons w ws ih =>
    have hstep : (w :: ws).foldl (fun acc q =>
        (acc.mkdirParents (parentDir (dst ++ q.1))).writeFile (dst ++ q.1)
          q.2) fs =
        ws.foldl (fun acc q =>
          (acc.mkdirParents (parentDir (dst ++ q.1))).writeFile (dst ++ q.1)
            q.2)
          ((fs.mkdirParents (parentDir (dst ++ w.1))).writeFile (dst ++ w.1)
            w.2) := rfl
    rw [hstep, ih _ (fun q hq => hne q (List.mem_cons_of_mem _ hq)),
      read?_writeFile_ne _ _ _ _ (hne w (List.mem_cons_self _ _)),
      read?_mkdirParents]

theorem read?_copyEngineTree (env : Env) (dst : FPath) (fs : FS) (p : FPath)
    (hne : ∀ q ∈ env.engineEntries, dst ++ q.1 ≠ p) :
    (copyEngineTree env dst fs).read? p = fs.read? p := by
  unfold copyEngineTree
  rw [read?_engineFold dst env.engineEntries _ p hne, read?_mkdirParents]

theorem render_template_error_fs (env : Env) (tp : String) (out : FPath)
    (context : Val) (vn : String) (fs fse : FS) (e : Err)
    (h : render_template env tp out context vn fs = .error (e, fse)) :
    fse = fs := by
  cases hrr : env.render tp context with
  | ok content =>
    by_cases hd : fs.hasDir (parentDir out) = true
    · simp [render_template, hrr, hd] at h
    · simp [render_template, hrr, hd] at h
      exact h.2.symm
  | synErr l m f =>
    simp [render_template, hrr] at h
    exact h.2.symm
  | notFound =>
    simp [render_template, hrr] at h
    exact h.2.symm
  | other t2 m2 =>
    simp [render_template, hrr] at h
    exact h.2.symm

theorem read?_renderAll (env : Env) (targets : List (String × FPath))
    (context : Val) (vn : String) (fs : FS) (p : FPath)
    (hne : ∀ t ∈ targets, t.2 ≠ p) :
    (exceptFS (renderAll env targets context vn fs)).read? p =
      fs.read? p := by
  induction targets generalizing fs with
  | nil => rfl
  | cons t ts ih =>
    obtain ⟨tp, out⟩ := t
    have hout : out ≠ p := hne (tp, out) (List.mem_cons_self _ _)
    rw [renderAll]
    cases hr : render_template env tp out context vn fs with
    | error e =>
      obtain ⟨e1, fse⟩ := e
      show fse.read? p = fs.read? p
      rw [render_template_error_fs env tp out context vn fs fse e1 hr]
    | ok fs2 =>
      have : render_template env tp out context vn fs = .ok fs2 := hr
      unfold render_template at this
      cases hrr : env.render tp context with
      | ok content =>
        rw [hrr] at this
        by_cases hd : fs.hasDir (parentDir out) = true
        · simp [hd] at this
          rw [ih _ (fun t2 ht2 => hne t2 (List.mem_cons_of_mem _ ht2)),
            ← this, read?_writeFile_ne _ _ _ _ hout]
        · simp [eq_false_of_ne_true hd] at this
      | synErr l m f => rw [hrr] at this; simp at this
      | notFound => rw [hrr] at this; simp at this
      | other t2 m2 => rw [hrr] at this; simp at this

theorem ne_index_of_mem_build (t : FPath) (h : "build" ∈ t) :
    t ≠ SITE_DIR ++ ["index.html"] := by
  intro he
  rw [he] at h
  revert h
  decide

theorem ne_index_of_mem_output (t : FPath) (h : "output" ∈ t) :
    t ≠ SITE_DIR ++ ["index.html"] := by
  intro he
  rw [he] at h
  revert h
  decide

theorem mem_build_build_dir (vd : FPath) (s : FPath) :
    "build" ∈ (vd ++ ["build"]) ++ s := by
  apply List.mem_append.mpr
  left
  apply List.mem_append.mpr
  right
  exact List.mem_singleton.mpr rfl

theorem mem_output_output_dir (vd : FPath) (s : FPath) :
    "output" ∈ (vd ++ ["output"]) ++ s := by
  apply List.mem_append.mpr
  left
  apply List.mem_append.mpr
  right
  exact List.mem_singleton.mpr rfl

theorem site_variant_ne_index (vn : String) (f : String) :
    (SITE_DIR ++ [vn]) ++ [f] ≠ SITE_DIR ++ ["index.html"] := by
  intro he
  have := congrArg List.length he
  simp [SITE_DIR] at this

theorem read?_run_command (env : Env) (command : List String) (wd : FPath)
    (ctx : String) (fs : FS) (p : FPath)
    (hne : ∀ q ∈ (env.runProc command wd).filesWritten, wd ++ q.1 ≠ p) :
    (exceptFS (run_command env command (some wd) ctx fs)).read? p =
      fs.read? p := by
  unfold run_command
  by_cases hrc : (env.runProc command wd).returncode = 0
  · simp only [Option.getD, hrc, if_pos]
    rw [show exceptFS (Except.ok (applyProcWrites wd
      (env.runProc command wd).filesWritten fs)) = applyProcWrites wd
      (env.runProc command wd).filesWritten fs from rfl]
    exact read?_applyProcWrites wd _ fs p hne
  · simp only [Option.getD, hrc, if_neg, if_false, ite_false]
    exact read?_applyProcWrites wd _ fs p hne

theorem read?_build_pdf (env : Env) (build_dir : FPath) (texf vn : String)
    (fs : FS) (p : FPath)
    (hne : ∀ command, ∀ q ∈ (env.runProc command build_dir).filesWritten,
      build_dir ++ q.1 ≠ p) :
    (match build_pdf_with_tectonic env build_dir texf vn fs with
      | .ok (_, fs2) => fs2
      | .error (_, fs2) => fs2).read? p = fs.read? p := by
  unfold build_pdf_with_tectonic
  cases env.tectonic with
  | none => rfl
  | some texe =>
    simp only []
    by_cases hin : (fs.mkdirParents env.bundleCache).hasFile
        (build_dir ++ [texf]) = true
    · rw [if_neg (by simp [hin])]
      cases hrun : run_command env [texe, "--print", "--synctex",
          "--keep-logs", texf] (some build_dir)
          ("LaTeX compilation failed for \x27" ++ texf ++ "\x27" ++
            variantSuffix vn) (fs.mkdirParents env.bundleCache) with
      | error e =>
        obtain ⟨e1, fse⟩ := e
        have hpres := read?_run_command env
          [texe, "--print", "--synctex", "--keep-logs", texf] build_dir
          ("LaTeX compilation failed for \x27" ++ texf ++ "\x27" ++
            variantSuffix vn)
          (fs.mkdirParents env.bundleCache) p (hne _)
        rw [hrun] at hpres
        simpa using hpres
      | ok fs1 =>
        have hpres := read?_run_command env
          [texe, "--print", "--synctex", "--keep-logs", texf] build_dir
          ("LaTeX compilation failed for \x27" ++ texf ++ "\x27" ++
            variantSuffix vn)
          (fs.mkdirParents env.bundleCache) p (hne _)
        rw [hrun] at hpres
        show (match (if ¬fs1.hasFile (build_dir ++ ["resume.pdf"]) = true
            then Except.error (Err.outputMissing vn, fs1)
            else Except.ok (build_dir ++ ["resume.pdf"], fs1)) with
          | Except.ok (_, fs2) => fs2
          | Except.error (_, fs2) => fs2).read? p = fs.read? p
        by_cases hpdf : fs1.hasFile (build_dir ++ ["resume.pdf"]) = true
        · rw [if_neg (by simp [hpdf])]
          simpa using hpres
        · rw [if_pos (by simp [hpdf])]
          simpa using hpres
    · rw [if_pos (by simp [hin])]
      rfl

theorem read?_copyFile (src dst : FPath) (fs : FS) (p : FPath)
    (hne : dst ≠ p) :
    (exceptFS (copyFile src dst fs)).read? p = fs.read? p := by
  unfold copyFile
  cases fs.read? src with
  | none => rfl
  | some content =>
    simp only []
    by_cases hd : fs.hasDir (parentDir dst) = true
    · rw [if_pos hd]
      exact read?_writeFile_ne fs p dst content hne
    · rw [if_neg hd]
      rfl

theorem read?_buildVariantSteps (env : Env) (vd : FPath) (vn : String)
    (config : List (String × Val)) (fs : FS) (p : FPath)
    (hb : ∀ s : FPath, (vd ++ ["build"]) ++ s ≠ p)
    (ho : ∀ s : FPath, (vd ++ ["output"]) ++ s ≠ p)
    (hsv : ∀ f : String, (SITE_DIR ++ [vn]) ++ [f] ≠ p) :
    (exceptFS (buildVariantSteps env vd vn config fs)).read? p =
      fs.read? p := by
  have hengine : ∀ q ∈ env.engineEntries,
      ((vd ++ ["build"]) ++ ["engine"]) ++ q.1 ≠ p := by
    intro q _
    rw [List.append_assoc]
    exact hb _
  have hrt : ∀ t ∈ RENDER_TARGETS (vd ++ ["build"]) (vd ++ ["output"]),
      t.2 ≠ p := by
    intro t ht
    simp only [RENDER_TARGETS, List.mem_cons, List.not_mem_nil, or_false]
      at ht
    rcases ht with rfl | rfl | rfl | rfl | rfl | rfl | rfl
    · exact hb _
    · exact hb _
    · exact hb _
    · exact hb _
    · exact hb _
    · exact hb _
    · exact ho _
  have hbase : ∀ fsx : FS,
      (env.styleFiles.foldl
        (fun acc q =>
          acc.writeFile ((vd ++ ["build"]) ++ [q.1 ++ ".sty"]) q.2)
        fsx).read? p = fsx.read? p :=
    fun fsx => read?_styleCopies (vd ++ ["build"]) env.styleFiles fsx p
      (fun q _ => hb _)
  have htree : (copyEngineTree env ((vd ++ ["build"]) ++ ["engine"])
      ((fs.mkdirParents (vd ++ ["build"])).mkdirParents
        (vd ++ ["output"]))).read? p = fs.read? p := by
    rw [read?_copyEngineTree env _ _ p hengine, read?_mkdirParents,
      read?_mkdirParents]
  unfold buildVariantSteps
  simp only []
  split
  · simp only [exceptFS]
    exact htree
  · split
    · simp only [exceptFS]
      exact htree
    · split
      next e heq =>
        obtain ⟨e1, fse⟩ := e
        have h1 : fse.read? p = fs.read? p := by
          rw [show fse.read? p =
            (exceptFS (Except.error (e1, fse))).read? p from rfl, ← heq]
          exact (read?_renderAll env _ _ vn _ p hrt).trans
            ((hbase _).trans htree)
        simpa only [exceptFS] using h1
      next fs1 heq =>
        have h1 : fs1.read? p = fs.read? p := by
          rw [show fs1.read? p = (exceptFS (Except.ok fs1)).read? p from rfl,
            ← heq]
          exact (read?_renderAll env _ _ vn _ p hrt).trans
            ((hbase _).trans htree)
        split
        next hd =>
          simpa only [exceptFS] using h1
        next hd =>
          have h2 : (fs1.writeFile ((vd ++ ["output"]) ++ ["resume.md"])
              (jsonDumps (Val.vdict config))).read? p = fs.read? p :=
            (read?_writeFile_ne fs1 p _ _ (ho _)).trans h1
          split
          next e heq2 =>
            obtain ⟨e1, fse⟩ := e
            have h3 : fse.read? p = fs.read? p := by
              rw [show fse.read? p = (match (Except.error (e1, fse) :
                  Except (Err × FS) (FPath × FS)) with
                | .ok (_, fs2) => fs2
                | .error (_, fs2) => fs2).read? p from rfl, ← heq2]
              exact (read?_build_pdf env (vd ++ ["build"]) "resume.tex" vn _
                p (fun c q _ => hb _)).trans h2
            simpa only [exceptFS] using h3
          next pdfp fs3 heq2 =>
            have h3 : fs3.read? p = fs.read? p := by
              rw [show fs3.read? p = (match (Except.ok (pdfp, fs3) :
                  Except (Err × FS) (FPath × FS)) with
                | .ok (_, fs2) => fs2
                | .error (_, fs2) => fs2).read? p from rfl, ← heq2]
              exact (read?_build_pdf env (vd ++ ["build"]) "resume.tex" vn _
                p (fun c q _ => hb _)).trans h2
            split
            next e heq3 =>
              obtain ⟨e1, fse⟩ := e
              have h4 : fse.read? p = fs.read? p := by
                rw [show fse.read? p =
                  (exceptFS (Except.error (e1, fse))).read? p from rfl,
                  ← heq3]
                exact (read?_copyFile pdfp _ fs3 p (ho _)).trans h3
              simpa only [exceptFS] using h4
            next fs4 heq3 =>
              have h4 : fs4.read? p = fs.read? p := by
                rw [show fs4.read? p = (exceptFS (Except.ok fs4)).read? p
                  from rfl, ← heq3]
                exact (read?_copyFile pdfp _ fs3 p (ho _)).trans h3
              have h5 : (fs4.mkdirParents (SITE_DIR ++ [vn])).read? p =
                  fs.read? p := (read?_mkdirParents fs4 _ p).trans h4
              split
              next e heq4 =>
                obtain ⟨e1, fse⟩ := e
                have h6 : fse.read? p = fs.read? p := by
                  rw [show fse.read? p =
                    (exceptFS (Except.error (e1, fse))).read? p from rfl,
                    ← heq4]
                  exact (read?_copyFile _ _ _ p (hsv _)).trans h5
                simpa only [exceptFS] using h6
              next fs5 heq4 =>
                have h6 : fs5.read? p = fs.read? p := by
                  rw [show fs5.read? p = (exceptFS (Except.ok fs5)).read? p
                    from rfl, ← heq4]
                  exact (read?_copyFile _ _ _ p (hsv _)).trans h5
                exact (read?_copyFile _ _ _ p (hsv _)).trans h6

theorem read?_index_build_variant (env : Env) (d : FPath) (fs : FS) :
    (exceptFS (build_variant env d fs)).read? (SITE_DIR ++ ["index.html"]) =
      fs.read? (SITE_DIR ++ ["index.html"]) := by
  unfold build_variant
  simp only []
  cases hr : fs.read? (d ++ ["resume.yaml"]) with
  | none => rfl
  | some raw =>
    simp only []
    cases env.yaml raw with
    | error m => rfl
    | ok parsed =>
      simp only []
      cases parsed with
      | vnull => rfl
      | vbool b => rfl
      | vint n => rfl
      | vstr s => rfl
      | vlist l => rfl
      | vdict m0 =>
        simp only []
        cases validate_resume_config env
            (dictSetdefault m0 "style" defaultStyleVal)
            (normalize_variant_name d) (d ++ ["resume.yaml"]) with
        | error e => rfl
        | ok u =>
          exact read?_buildVariantSteps env d (normalize_variant_name d) _
            fs _
            (fun s => ne_index_of_mem_build _ (mem_build_build_dir d s))
            (fun s => ne_index_of_mem_output _ (mem_output_output_dir d s))
            (fun f => site_variant_ne_index _ f)

theorem read?_index_processVariants (env : Env) (dirs : List FPath)
    (fs : FS) :
    (exceptFSN (processVariants env dirs fs)).read?
        (SITE_DIR ++ ["index.html"]) =
      fs.read? (SITE_DIR ++ ["index.html"]) := by
  induction dirs generalizing fs with
  | nil => rfl
  | cons d rest ih =>
    simp only [processVariants]
    by_cases hc : isCandidate fs d = true
    · rw [if_pos hc]
      cases hbv : build_variant env d fs with
      | error e =>
        obtain ⟨e1, fse⟩ := e
        have h1 := read?_index_build_variant env d fs
        rw [hbv] at h1
        simpa only [exceptFS] using h1
      | ok fs2 =>
        have h1 := read?_index_build_variant env d fs
        rw [hbv] at h1
        simp only [exceptFS] at h1
        simp only []
        cases hp : processVariants env rest fs2 with
        | error e =>
          obtain ⟨e1, fse⟩ := e
          have h2 := ih fs2
          rw [hp] at h2
          simp only [exceptFSN] at h2
          exact h2.trans h1
        | ok r =>
          obtain ⟨fs3, names⟩ := r
          have h2 := ih fs2
          rw [hp] at h2
          simp only [exceptFSN] at h2
          exact h2.trans h1
    · rw [if_neg hc]
      exact ih fs

theorem processVariants_append_error (env : Env) (pre : List FPath)
    (post : List FPath) (d : FPath) (fs0 fs1 : FS) (names : List String)
    (e : Err) (fse : FS)
    (hpre : processVariants env pre fs0 = .ok (fs1, names))
    (hcand : isCandidate fs1 d = true)
    (hfail : build_variant env d fs1 = .error (e, fse)) :
    processVariants env (pre ++ d :: post) fs0 = .error (e, fse) := by
  induction pre generalizing fs0 names with
  | nil =>
    simp only [processVariants] at hpre
    injection hpre with h
    injection h with h1 h2
    subst h1
    rw [List.nil_append]
    simp only [processVariants]
    rw [if_pos hcand, hfail]
  | cons a pre2 ih =>
    simp only [processVariants] at hpre ⊢
    by_cases hca : isCandidate fs0 a = true
    · rw [if_pos hca] at hpre ⊢
      cases hbv : build_variant env a fs0 with
      | error e2 =>
        rw [hbv] at hpre
        exact absurd hpre (by simp)
      | ok fs2 =>
        rw [hbv] at hpre
        simp only [] at hpre ⊢
        cases hp : processVariants env pre2 fs2 with
        | error e2 =>
          rw [hp] at hpre
          exact absurd hpre (by simp)
        | ok r =>
          obtain ⟨fs3, names2⟩ := r
          rw [hp] at hpre
          simp only [] at hpre
          injection hpre with h
          injection h with h1 h2
          subst h1
          rw [List.append_eq, ih fs2 names2 hp]
    · rw [if_neg hca] at hpre ⊢
      exact ih fs0 names hpre

/-- C8 counterexample: the frozen claim says the propagated error carries
the variant name. For the variant directory `resumes/acme` whose
configuration file parses to a non-mapping (here: an empty file parsing to
null), the pipeline does abort with exit status 1, but the propagated
error is the bare `AttributeError` from `config.setdefault`, whose message
does not contain the variant name `acme` at all. -/
theorem C8_counterexample :
    main_pipeline
        (Env.mk (fun _ => .ok .vnull) (fun _ _ => .notFound) none
          (fun _ _ => ProcResult.mk 0 "" []) [] true [("default", "s")] [])
        [["resumes", "acme"]]
        (FS.mk [["resumes"], ["resumes", "acme"]]
          [(["resumes", "acme", "resume.yaml"], "")]) =
      .error (.attrError "NoneType" "setdefault",
        FS.mk [[], ["site"], ["resumes"], ["resumes", "acme"]]
          [(["resumes", "acme", "resume.yaml"], "")]) ∧
    normalize_variant_name ["resumes", "acme"] = "acme" ∧
    ¬ strContains (Err.attrError "NoneType" "setdefault").message "acme" ∧
    exitCode (main_pipeline
        (Env.mk (fun _ => .ok .vnull) (fun _ _ => .notFound) none
          (fun _ _ => ProcResult.mk 0 "" []) [] true [("default", "s")] [])
        [["resumes", "acme"]]
        (FS.mk [["resumes"], ["resumes", "acme"]]
          [(["resumes", "acme", "resume.yaml"], "")])) = 1 := by
  refine ⟨rfl, rfl, by decide, rfl⟩

/-- C8 (amended): if, after some prefix of the candidate sequence built
successfully, the next candidate variant's build fails, then the whole
pipeline fails with exactly that error (unchanged rather than enriched
with the variant name, and independent of the remaining candidates, so no
subsequent variant is built), the process exit status is 1, and the
top-level `site/index.html` is not written: its content at the moment of
failure equals its content in the initial filesystem. -/
theorem C8_amended_failure_aborts (env : Env) (pre post : List FPath)
    (d : FPath) (fs fs1 fse : FS) (names : List String) (e : Err)
    (hpre : processVariants env pre (fs.mkdirParents SITE_DIR) =
      .ok (fs1, names))
    (hcand : isCandidate fs1 d = true)
    (hfail : build_variant env d fs1 = .error (e, fse)) :
    main_pipeline env (pre ++ d :: post) fs = .error (e, fse) ∧
    exitCode (main_pipeline env (pre ++ d :: post) fs) = 1 ∧
    fse.read? (SITE_DIR ++ ["index.html"]) =
      fs.read? (SITE_DIR ++ ["index.html"]) := by
  have hp := processVariants_append_error env pre post d
    (fs.mkdirParents SITE_DIR) fs1 names e fse hpre hcand hfail
  have hm : main_pipeline env (pre ++ d :: post) fs = .error (e, fse) := by
    unfold main_pipeline
    simp only []
    rw [hp]
  refine ⟨hm, by rw [hm]; rfl, ?_⟩
  have h1 : fse.read? (SITE_DIR ++ ["index.html"]) =
      fs1.read? (SITE_DIR ++ ["index.html"]) := by
    have h := read?_index_build_variant env d fs1
    rw [hfail] at h
    simpa only [exceptFS] using h
  have h2 : fs1.read? (SITE_DIR ++ ["index.html"]) =
      (fs.mkdirParents SITE_DIR).read? (SITE_DIR ++ ["index.html"]) := by
    have h := read?_index_processVariants env pre (fs.mkdirParents SITE_DIR)
    rw [hpre] at h
    simpa only [exceptFSN] using h
  exact h1.trans (h2.trans (read?_mkdirParents fs SITE_DIR _))

/-- Closed witness for the amended C8: an empty prefix and suffix around a
single failing variant. -/
theorem C8_amended_witness :
    main_pipeline
        (Env.mk (fun _ => .ok .vnull) (fun _ _ => .notFound) none
          (fun _ _ => ProcResult.mk 0 "" []) [] true [("default", "s")] [])
        ([] ++ ["resumes", "acme"] :: [])
        (FS.mk [["resumes"], ["resumes", "acme"]]
          [(["resumes", "acme", "resume.yaml"], "")]) =
      .error (.attrError "NoneType" "setdefault",
        (FS.mk [["resumes"], ["resumes", "acme"]]
          [(["resumes", "acme", "resume.yaml"], "")]).mkdirParents
          SITE_DIR) ∧
    exitCode (main_pipeline
        (Env.mk (fun _ => .ok .vnull) (fun _ _ => .notFound) none
          (fun _ _ => ProcResult.mk 0 "" []) [] true [("default", "s")] [])
        ([] ++ ["resumes", "acme"] :: [])
        (FS.mk [["resumes"], ["resumes", "acme"]]
          [(["resumes", "acme", "resume.yaml"], "")])) = 1 ∧
    ((FS.mk [["resumes"], ["resumes", "acme"]]
        [(["resumes", "acme", "resume.yaml"], "")]).mkdirParents
        SITE_DIR).read? (SITE_DIR ++ ["index.html"]) =
      (FS.mk [["resumes"], ["resumes", "acme"]]
        [(["resumes", "acme", "resume.yaml"], "")]).read?
        (SITE_DIR ++ ["index.html"]) :=
  C8_amended_failure_aborts
    (Env.mk (fun _ => .ok .vnull) (fun _ _ => .notFound) none
      (fun _ _ => ProcResult.mk 0 "" []) [] true [("default", "s")] [])
    [] [] ["resumes", "acme"]
    (FS.mk [["resumes"], ["resumes", "acme"]]
      [(["resumes", "acme", "resume.yaml"], "")])
    ((FS.mk [["resumes"], ["resumes", "acme"]]
      [(["resumes", "acme", "resume.yaml"], "")]).mkdirParents SITE_DIR)
    ((FS.mk [["resumes"], ["resumes", "acme"]]
      [(["resumes", "acme", "resume.yaml"], "")]).mkdirParents SITE_DIR)
    [] (.attrError "NoneType" "setdefault") rfl rfl rfl
